import Mathlib

set_option maxHeartbeats 1600000
set_option maxRecDepth 4000

/-!
Shallow embedding of the command analyzer of the safety-net hook
(`scripts/safety_net_impl/`): the shell splitter, the token lexer, the
wrapper stripper, the option helpers, the `git` and `find` analyzers, the
custom-rule matcher, the text-level fallback detectors, the `xargs` and
`parallel` dispatch parsers and the per-segment orchestrator.  Python
strings are modelled as Lean `String` (operated on through `String.data`,
i.e. lists of characters); Python `None`-returning functions return
`Option`.  Character classes (`isalpha`, whitespace, `\w`, `\s`) are the
ASCII fragments of their Python counterparts, which coincide with Python on
all ASCII input.
-/

/-! ## Character and string helpers -/

/-- ASCII whitespace as stripped by Python `str.strip()` and matched by the
regex class `\s`. -/
def isSpaceChar (c : Char) : Bool :=
  c = ' ' || c = '\t' || c = '\n' || c = '\r' || c = '\x0b' || c = '\x0c'

def dropTrailingSpaces (l : List Char) : List Char :=
  (l.reverse.dropWhile isSpaceChar).reverse

/-- Python `str.strip()` on a list of characters. -/
def trimChars (l : List Char) : List Char :=
  dropTrailingSpaces (l.dropWhile isSpaceChar)

/-- Python `str.strip()`. -/
def trimStr (s : String) : String := String.mk (trimChars s.data)

/-- Python `str.lower()` (ASCII). -/
def lowerStr (s : String) : String := String.mk (s.data.map Char.toLower)

/-- Python `str.startswith` as a prefix test on character lists. -/
def startsWithStr (s p : String) : Bool := p.data.isPrefixOf s.data

/-- All suffixes of a character list, longest first (used to model
`re.search` and the Python `in` substring test). -/
def suffixesOf : List Char → List (List Char)
  | [] => [[]]
  | c :: rest => (c :: rest) :: suffixesOf rest

/-- Python `pat in l` substring containment on character lists. -/
def containsChars (l pat : List Char) : Bool :=
  (suffixesOf l).any (fun suf => pat.isPrefixOf suf)

/-- Python `pat in s` substring containment. -/
def strContains (s pat : String) : Bool := containsChars s.data pat.data

/-- All suffixes of a character list together with the character standing
immediately before each suffix (`none` for the suffix that is the whole
list); models scanning `re.search` start positions with their look-behind
context. -/
def suffixesWithPrev : List Char → List (Option Char × List Char)
  | [] => []
  | c :: rest => (some c, rest) :: suffixesWithPrev rest

def searchStarts (l : List Char) : List (Option Char × List Char) :=
  (none, l) :: suffixesWithPrev l

/-- Python `str.replace(pat, rep)` (all non-overlapping occurrences, left
to right); the skip counter carries the tail of an occurrence just
replaced, keeping the recursion structural. -/
def replaceGo (pat rep : List Char) : List Char → Nat → List Char
  | [], _ => []
  | _ :: rest, skip + 1 => replaceGo pat rep rest skip
  | c :: rest, 0 =>
    if pat ≠ [] && pat.isPrefixOf (c :: rest) then
      rep ++ replaceGo pat rep rest (pat.length - 1)
    else
      c :: replaceGo pat rep rest 0

def replaceChars (l pat rep : List Char) : List Char :=
  replaceGo pat rep l 0

def replaceStr (s pat rep : String) : String :=
  String.mk (replaceChars s.data pat.data rep.data)

/-- Everything after the first `=` in a token (Python
`tok.split("=", 1)[1]`); empty when there is no `=` or nothing follows. -/
def afterFirstEq (s : String) : String :=
  String.mk ((s.data.dropWhile (fun c => c ≠ '=')).drop 1)

/-- `posixpath.basename`: the part after the last `/`. -/
def posixBasename (s : String) : String :=
  String.mk ((s.data.reverse.takeWhile (fun c => c ≠ '/')).reverse)

/-! ## 4.B Token lexer (`shlex.split(segment, posix=True)`) -/

/-- Lexer state of the POSIX `shlex` scan: between/inside words, inside a
single- or double-quoted span, or just after a backslash (outside quotes or
inside a double-quoted span). -/
inductive LexMode
  | norm
  | esc
  | single
  | double
  | doubleEsc
deriving DecidableEq

def lexFlush (tok : Option (List Char)) (acc : List String) : List String :=
  match tok with
  | some t => acc ++ [String.mk t]
  | none => acc

/-- Whitespace recognized by `shlex` (` \t\r\n`). -/
def isShlexWs (c : Char) : Bool :=
  c = ' ' || c = '\t' || c = '\r' || c = '\n'

def curTok (tok : Option (List Char)) : List Char :=
  match tok with
  | some t => t
  | none => []

def shlexLoop : List Char → LexMode → Option (List Char) → List String →
    Option (List String)
  | [], .norm, tok, acc => some (lexFlush tok acc)
  | [], _, _, _ => none
  | c :: rest, .norm, tok, acc =>
    if isShlexWs c then
      match tok with
      | some t => shlexLoop rest .norm none (acc ++ [String.mk t])
      | none => shlexLoop rest .norm none acc
    else if c = '\'' then
      shlexLoop rest .single (some (curTok tok)) acc
    else if c = '"' then
      shlexLoop rest .double (some (curTok tok)) acc
    else if c = '\\' then
      shlexLoop rest .esc (some (curTok tok)) acc
    else
      shlexLoop rest .norm (some (curTok tok ++ [c])) acc
  | c :: rest, .esc, tok, acc =>
    shlexLoop rest .norm (some (curTok tok ++ [c])) acc
  | c :: rest, .single, tok, acc =>
    if c = '\'' then shlexLoop rest .norm tok acc
    else shlexLoop rest .single (some (curTok tok ++ [c])) acc
  | c :: rest, .double, tok, acc =>
    if c = '"' then shlexLoop rest .norm tok acc
    else if c = '\\' then shlexLoop rest .doubleEsc tok acc
    else shlexLoop rest .double (some (curTok tok ++ [c])) acc
  | c :: rest, .doubleEsc, tok, acc =>
    if c = '"' || c = '\\' then
      shlexLoop rest .double (some (curTok tok ++ [c])) acc
    else
      shlexLoop rest .double (some (curTok tok ++ ['\\', c])) acc

/-- `_shlex_split`: POSIX word-splitting; `none` models the `ValueError`
raised on an unterminated quote or trailing escape. -/
def shlexSplit (segment : String) : Option (List String) :=
  shlexLoop segment.data .norm none []

/-! ## 4.A Shell splitter (`_split_shell_commands`) -/

def splitFlush (buf : List Char) (acc : List String) : List String :=
  let part := trimChars buf
  if part = [] then acc else acc ++ [String.mk part]

/-- The character-by-character loop of `_split_shell_commands`, with the
previous character of the original string threaded through (the source
reads `command[i - 1]`; after a two-character delimiter the previous
character is the second delimiter character).  The branch order mirrors the
if/elif chain of the source; `command.startswith ("&&", i)` is the test
`c = \x27&\x27 && rest.head? = some \x27&\x27`. -/
def splitLoop : List Char → Option Char → Bool → Bool → Bool → List Char →
    List String → List String
  | [], _, _, _, _, buf, acc => splitFlush buf acc
  | c :: rest, prev, inS, inD, esc, buf, acc =>
    if esc then splitLoop rest (some c) inS inD false (buf ++ [c]) acc
    else if c = '\\' && !inS then
      splitLoop rest (some c) inS inD true (buf ++ [c]) acc
    else if c = '\'' && !inD then
      splitLoop rest (some c) (!inS) inD false (buf ++ [c]) acc
    else if c = '"' && !inS then
      splitLoop rest (some c) inS (!inD) false (buf ++ [c]) acc
    else if !inS && !inD then
      if (c = '&' && rest.head? = some '&') || (c = '|' && rest.head? = some '|')
          || (c = '|' && rest.head? = some '&') then
        match rest with
        | c2 :: rest2 => splitLoop rest2 (some c2) inS inD false [] (splitFlush buf acc)
        | [] => splitFlush buf acc
      else if c = '|' then
        splitLoop rest (some c) inS inD false [] (splitFlush buf acc)
      else if c = '&' then
        if prev = some '>' || prev = some '<' || rest.head? = some '>' then
          splitLoop rest (some c) inS inD false (buf ++ [c]) acc
        else
          splitLoop rest (some c) inS inD false [] (splitFlush buf acc)
      else if c = ';' || c = '\n' then
        splitLoop rest (some c) inS inD false [] (splitFlush buf acc)
      else
        splitLoop rest (some c) inS inD false (buf ++ [c]) acc
    else
      splitLoop rest (some c) inS inD false (buf ++ [c]) acc

/-- `_split_shell_commands`: top-level segments of a command string. -/
def splitShellCommands (command : String) : List String :=
  splitLoop command.data none false false false [] []

/-! ### Claim-side splitter (spec section 4.A), for the refinement claim -/

/-- Claim-side flush, following the spec sentence: the returned list holds
the trimmed, non-empty segments in source order. -/
def specFlush (buf : List Char) (acc : List String) : List String :=
  if trimChars buf = [] then acc else acc ++ [String.mk (trimChars buf)]

/-- Claim-side delimiter classification, following the spec sentence: while
outside quotes the splitter splits at `;`, newline, `||`, `&&`, `|`, `|&`
and unattached `&`; a `&` immediately preceded by `>` or `<`, or
immediately followed by `>`, is part of a redirection and does not split.
Returns how many characters the delimiter occupies, `none` when the
position does not split. -/
def specDelim (prev : Option Char) (c : Char) (rest : List Char) : Option Nat :=
  if c = '&' && rest.head? = some '&' then some 2
  else if c = '|' && rest.head? = some '|' then some 2
  else if c = '|' && rest.head? = some '&' then some 2
  else if c = '|' then some 1
  else if c = ';' then some 1
  else if c = '\n' then some 1
  else if c = '&' then
    if prev = some '>' || prev = some '<' || rest.head? = some '>' then none
    else some 1
  else none

/-- Claim-side splitter loop, following spec section 4.A: scan character by
character tracking single-quote, double-quote and backslash-escape state;
outside quotes, split where `specDelim` fires, flushing the trimmed
non-empty buffer. -/
def specSplitLoop : List Char → Option Char → Bool → Bool → Bool →
    List Char → List String → List String
  | [], _, _, _, _, buf, acc => specFlush buf acc
  | c :: rest, prev, inS, inD, esc, buf, acc =>
    if esc then specSplitLoop rest (some c) inS inD false (buf ++ [c]) acc
    else if c = '\\' && !inS then
      specSplitLoop rest (some c) inS inD true (buf ++ [c]) acc
    else if c = '\'' && !inD then
      specSplitLoop rest (some c) (!inS) inD false (buf ++ [c]) acc
    else if c = '"' && !inS then
      specSplitLoop rest (some c) inS (!inD) false (buf ++ [c]) acc
    else if !inS && !inD then
      if specDelim prev c rest = none then
        specSplitLoop rest (some c) inS inD false (buf ++ [c]) acc
      else if specDelim prev c rest = some 2 then
        match rest with
        | c2 :: rest2 =>
          specSplitLoop rest2 (some c2) inS inD false [] (specFlush buf acc)
        | [] => specFlush buf acc
      else
        specSplitLoop rest (some c) inS inD false [] (specFlush buf acc)
    else
      specSplitLoop rest (some c) inS inD false (buf ++ [c]) acc

/-- Claim-side `_split_shell_commands`, following spec section 4.A. -/
def specSplitShellCommands (command : String) : List String :=
  specSplitLoop command.data none false false false [] []

/-! ## 4.C Wrapper stripper (`shell.py`) -/

/-- One token of the form `KEY=VALUE` with `KEY` matching
`[A-Za-z_][A-Za-z0-9_]*` (the loop body of `_strip_env_assignments`). -/
def isEnvAssignment (tok : String) : Bool :=
  if tok.data.contains '=' then
    match tok.data.takeWhile (fun c => c ≠ '=') with
    | [] => false
    | k :: krest =>
      (k.isAlpha || k = '_') && krest.all (fun c => c.isAlphanum || c = '_')
  else false

/-- `_strip_env_assignments`. -/
def stripEnvAssignments (tokens : List String) : List String :=
  tokens.dropWhile isEnvAssignment

/-- The option scan of the `sudo` branch of `_strip_wrappers`. -/
def dropSudoOpts : List String → List String
  | [] => []
  | t :: rest =>
    if startsWithStr t "-" && t ≠ "--" then dropSudoOpts rest
    else if t = "--" then rest
    else t :: rest

/-- The option scan of the `env` branch of `_strip_wrappers`; a pending
value consumption (`i += 2`) is carried as a skip flag. -/
def dropEnvOptsGo : List String → Bool → List String
  | [], _ => []
  | _ :: rest, true => dropEnvOptsGo rest false
  | t :: rest, false =>
    if t = "--" then rest
    else if t = "-u" || t = "--unset" || t = "-C" || t = "-P" || t = "-S" then
      dropEnvOptsGo rest true
    else if startsWithStr t "--unset=" then dropEnvOptsGo rest false
    else if startsWithStr t "-u" && t.length > 2 then dropEnvOptsGo rest false
    else if startsWithStr t "-C" && t.length > 2 then dropEnvOptsGo rest false
    else if startsWithStr t "-P" && t.length > 2 then dropEnvOptsGo rest false
    else if startsWithStr t "-S" && t.length > 2 then dropEnvOptsGo rest false
    else if startsWithStr t "-" && t ≠ "-" then dropEnvOptsGo rest false
    else t :: rest

def dropEnvOpts (l : List String) : List String := dropEnvOptsGo l false

/-- The option scan of the `command` branch of `_strip_wrappers`. -/
def dropCommandOpts : List String → List String
  | [] => []
  | t :: rest =>
    if t = "--" then rest
    else if t = "-p" || t = "-v" || t = "-V" then dropCommandOpts rest
    else if startsWithStr t "-" && t ≠ "-" && !startsWithStr t "--" &&
        t.data.drop 1 ≠ [] &&
        (t.data.drop 1).all (fun c => c = 'p' || c = 'v' || c = 'V') then
      dropCommandOpts rest
    else t :: rest

/-- The bounded loop of `_strip_wrappers`.  The source guards the loop with
`tokens != previous`, but every iteration that continues strictly shortens
the token list, so that guard can never fire and only the `depth < 20` fuel
and the explicit `break`/empty exits remain. -/
def stripWrappersLoop : Nat → List String → List String
  | 0, tokens => tokens
  | fuel + 1, tokens =>
    if tokens = [] then tokens
    else
      match stripEnvAssignments tokens with
      | [] => []
      | h :: rest =>
        if lowerStr h = "sudo" then stripWrappersLoop fuel (dropSudoOpts rest)
        else if lowerStr h = "env" then stripWrappersLoop fuel (dropEnvOpts rest)
        else if lowerStr h = "command" then
          stripWrappersLoop fuel (dropCommandOpts rest)
        else h :: rest

/-- `_strip_wrappers`. -/
def stripWrappers (tokens : List String) : List String :=
  stripEnvAssignments (stripWrappersLoop 20 tokens)

/-! ## 4.D Option helpers -/

/-- `_short_opts`: individual short option letters, stopping at `--` and,
within a token, at the first non-alphabetic character.  The Python set is
modelled as a list queried only through membership. -/
def shortOpts : List String → List Char
  | [] => []
  | tok :: rest =>
    if tok = "--" then []
    else if startsWithStr tok "--" || !startsWithStr tok "-" || tok = "-" then
      shortOpts rest
    else (tok.data.drop 1).takeWhile Char.isAlpha ++ shortOpts rest

/-- `_strip_token_wrappers` (hook.py): trim, drop `$(` pairs from the
front, strip leading wrapper punctuation and trailing closers. -/
def dropDollarParens : List Char → List Char
  | '$' :: '(' :: rest => dropDollarParens rest
  | l => l

def stripTokenWrappers (token : String) : String :=
  let tok := trimChars token.data
  let tok := dropDollarParens tok
  let tok := tok.dropWhile
    (fun c => c = '\\' || c = '\x60' || c = '(' || c = '\x7b' || c = '[')
  let tok := (tok.reverse.dropWhile
    (fun c => c = '\x60' || c = ')' || c = '\x7d' || c = ']')).reverse
  String.mk tok

/-- `_normalize_cmd_token`: strip wrapper punctuation, drop trailing
semicolons, lowercase, take the basename. -/
def normalizeCmdToken (token : String) : String :=
  let tok := stripTokenWrappers token
  let tok := String.mk (tok.data.reverse.dropWhile (fun c => c = ';')).reverse
  posixBasename (lowerStr tok)

/-! ## 4.F `git` analyzer (`rules_git.py`) -/

def reasonGitCheckoutDoubleDash : String :=
  "git checkout -- discards uncommitted changes permanently. Use \x27git stash\x27 first."

def reasonGitCheckoutRefDoubleDash : String :=
  "git checkout <ref> -- <path> overwrites working tree. Use \x27git stash\x27 first."

def reasonGitCheckoutRefPathspec : String :=
  "git checkout <ref> <path> overwrites working tree. Use \x27git stash\x27 first."

def reasonGitCheckoutPathspecFromFile : String :=
  "git checkout --pathspec-from-file overwrites working tree. Use \x27git stash\x27 first."

def reasonGitRestore : String :=
  "git restore discards uncommitted changes. Use \x27git stash\x27 or \x27git diff\x27 first."

def reasonGitRestoreWorktree : String :=
  "git restore --worktree discards uncommitted changes permanently."

def reasonGitResetHard : String :=
  "git reset --hard destroys uncommitted changes. Use \x27git stash\x27 first."

def reasonGitResetMerge : String := "git reset --merge can lose uncommitted changes."

def reasonGitCleanForce : String :=
  "git clean -f removes untracked files permanently. Review with \x27git clean -n\x27 first."

def reasonGitPushForce : String :=
  "Force push can destroy remote history. Use --force-with-lease if necessary."

def reasonGitWorktreeRemoveForce : String :=
  "git worktree remove --force can delete worktree files. Verify the path first."

def reasonGitBranchDeleteForce : String :=
  "git branch -D force-deletes without merge check. Use -d for safety."

def reasonGitStashDrop : String :=
  "git stash drop permanently deletes stashed changes. List stashes first with \x27git stash list\x27."

def reasonGitStashClear : String := "git stash clear permanently deletes ALL stashed changes."

def gitOptsWithValue : List String :=
  ["-c", "-C", "--exec-path", "--git-dir", "--namespace", "--super-prefix",
   "--work-tree"]

def gitOptsNoValue : List String :=
  ["-p", "-P", "-h", "--help", "--no-pager", "--paginate", "--version",
   "--bare", "--no-replace-objects", "--literal-pathspecs",
   "--noglob-pathspecs", "--icase-pathspecs"]

/-- The global-option scan of `_git_subcommand_and_rest`; returns the
tokens from the subcommand position on.  A pending value consumption
(`i += 2`) is carried as a skip flag so the recursion stays structural on
the token list. -/
def gitGlobalScanGo : List String → Bool → List String
  | [], _ => []
  | _ :: rest, true => gitGlobalScanGo rest false
  | tok :: rest, false =>
    if tok = "--" then rest
    else if !startsWithStr tok "-" || tok = "-" then tok :: rest
    else if tok ∈ gitOptsNoValue then gitGlobalScanGo rest false
    else if tok ∈ gitOptsWithValue then gitGlobalScanGo rest true
    else if startsWithStr tok "--" then gitGlobalScanGo rest false
    else if startsWithStr tok "-C" && tok.length > 2 then
      gitGlobalScanGo rest false
    else if startsWithStr tok "-c" && tok.length > 2 then
      gitGlobalScanGo rest false
    else gitGlobalScanGo rest false

def gitGlobalScan (l : List String) : List String := gitGlobalScanGo l false

/-- `_git_subcommand_and_rest`. -/
def gitSubcommandAndRest (tokens : List String) : Option String × List String :=
  match tokens with
  | [] => (none, [])
  | h :: rest =>
    if lowerStr h ≠ "git" then (none, [])
    else
      match gitGlobalScan rest with
      | [] => (none, [])
      | sub :: r => (some sub, r)

def checkoutOptsWithValue : List String :=
  ["-b", "-B", "--orphan", "--conflict", "-U", "--unified",
   "--inter-hunk-context", "--pathspec-from-file"]

def checkoutOptsNoValue : List String :=
  ["-f", "--force", "-m", "--merge", "-q", "--quiet", "--detach",
   "--ignore-skip-worktree-bits", "--overwrite-ignore", "--no-overlay",
   "--overlay", "--progress", "--no-progress", "--guess", "--no-guess",
   "--pathspec-file-nul"]

/-- `_checkout_positional_args`. -/
def checkoutPositionalArgs : List String → List String
  | [] => []
  | tok :: rest =>
    if tok = "--" then []
    else if tok = "-" then tok :: checkoutPositionalArgs rest
    else if startsWithStr tok "-" then
      if tok ∈ checkoutOptsNoValue then checkoutPositionalArgs rest
      else if startsWithStr tok "--" && tok.data.contains '=' then
        checkoutPositionalArgs rest
      else if startsWithStr tok "-U" && tok.length > 2 then
        checkoutPositionalArgs rest
      else if startsWithStr tok "-b" && tok.length > 2 then
        checkoutPositionalArgs rest
      else if startsWithStr tok "-B" && tok.length > 2 then
        checkoutPositionalArgs rest
      else if tok ∈ checkoutOptsWithValue then
        match rest with
        | [] => []
        | _ :: r2 => checkoutPositionalArgs r2
      else if tok = "--recurse-submodules" then
        match rest with
        | v :: r => if v = "checkout" || v = "on-demand" then
            checkoutPositionalArgs r
          else checkoutPositionalArgs (v :: r)
        | [] => checkoutPositionalArgs []
      else if tok = "-t" || tok = "--track" then
        match rest with
        | v :: r => if v = "direct" || v = "inherit" then
            checkoutPositionalArgs r
          else checkoutPositionalArgs (v :: r)
        | [] => checkoutPositionalArgs []
      else if startsWithStr tok "--" then
        match rest with
        | v :: r => if !startsWithStr v "-" then checkoutPositionalArgs r
          else checkoutPositionalArgs (v :: r)
        | [] => checkoutPositionalArgs []
      else checkoutPositionalArgs rest
    else tok :: checkoutPositionalArgs rest

/-- `_analyze_git`. -/
def analyzeGit (tokens : List String) : Option String :=
  match gitSubcommandAndRest tokens with
  | (none, _) => none
  | (some sub0, rest) =>
    let sub := lowerStr sub0
    let restLower := rest.map lowerStr
    let short := shortOpts rest
    if sub = "checkout" then
      if rest.contains "--" then
        if rest.takeWhile (fun t => t ≠ "--") = [] then
          some reasonGitCheckoutDoubleDash
        else some reasonGitCheckoutRefDoubleDash
      else if rest.contains "-b" || short.contains 'b' then none
      else if rest.contains "-B" || short.contains 'B' then none
      else if restLower.contains "--orphan" then none
      else if restLower.any (fun t =>
          t = "--pathspec-from-file" || startsWithStr t "--pathspec-from-file=") then
        some reasonGitCheckoutPathspecFromFile
      else if (checkoutPositionalArgs rest).length ≥ 2 then
        some reasonGitCheckoutRefPathspec
      else none
    else if sub = "restore" then
      if restLower.contains "-h" || restLower.contains "--help" ||
          restLower.contains "--version" then none
      else if restLower.contains "--worktree" then some reasonGitRestoreWorktree
      else if restLower.contains "--staged" then none
      else some reasonGitRestore
    else if sub = "reset" then
      if restLower.contains "--hard" then some reasonGitResetHard
      else if restLower.contains "--merge" then some reasonGitResetMerge
      else none
    else if sub = "clean" then
      if restLower.contains "--force" || short.contains 'f' then
        some reasonGitCleanForce
      else none
    else if sub = "push" then
      let hasForceWithLease := restLower.any
        (fun t => startsWithStr t "--force-with-lease")
      let hasForce := restLower.contains "--force" || short.contains 'f'
      if hasForce && !hasForceWithLease then some reasonGitPushForce
      else if restLower.contains "--force" && hasForceWithLease then
        some reasonGitPushForce
      else if short.contains 'f' && hasForceWithLease then some reasonGitPushForce
      else none
    else if sub = "worktree" then
      match restLower with
      | [] => none
      | first :: _ =>
        if first ≠ "remove" then none
        else
          let restForOpts :=
            if rest.contains "--" then rest.takeWhile (fun t => t ≠ "--") else rest
          let restForOptsLower := restForOpts.map lowerStr
          let shortForOpts := shortOpts restForOpts
          if restForOptsLower.contains "--force" || shortForOpts.contains 'f' then
            some reasonGitWorktreeRemoveForce
          else none
    else if sub = "branch" then
      if rest.contains "-D" || short.contains 'D' then
        some reasonGitBranchDeleteForce
      else none
    else if sub = "stash" then
      match restLower with
      | [] => none
      | first :: _ =>
        if first = "drop" then some reasonGitStashDrop
        else if first = "clear" then some reasonGitStashClear
        else none
    else none

/-! ## Custom rules (`config.py` data model, `rules_custom.py`) -/

structure CustomRule where
  name : String
  command : String
  subcommand : Option String
  blockArgs : List String
  reason : String
deriving DecidableEq

structure Config where
  version : Nat
  rules : List CustomRule
deriving DecidableEq

/-- `_normalize_command` (rules_custom.py): basename, case-sensitive. -/
def normalizeCommand (token : String) : String := posixBasename token

/-- `_extract_subcommand`: first non-option token after the command,
honoring `--`; short options are not assumed to consume a value. -/
def extractSubcommandGo : List String → Option String
  | [] => none
  | tok :: rest =>
    if tok = "--" then
      match rest with
      | next :: _ => some next
      | [] => none
    else if startsWithStr tok "--" then extractSubcommandGo rest
    else if startsWithStr tok "-" && tok.length ≥ 2 then extractSubcommandGo rest
    else some tok

def extractSubcommand (tokens : List String) : Option String :=
  match tokens with
  | [] => none
  | _ :: rest => extractSubcommandGo rest

/-- The per-rule match of `check_custom_rules`: some blocked argument is
present verbatim, or is a two-character short flag whose letter occurs in
the expanded short-option set. -/
def ruleBlockArgHit (rule : CustomRule) (tokens : List String)
    (short : List Char) : Bool :=
  rule.blockArgs.any (fun blocked =>
    tokens.contains blocked ||
      (blocked.length = 2 &&
        (match blocked.data with
         | b0 :: b1 :: _ => b0 = '-' && b1 ≠ '-' && short.contains b1
         | _ => false)))

/-- The rule loop of `check_custom_rules`: first matching rule wins. -/
def customRulesGo (tokens : List String) (command : String)
    (subcommand : Option String) (short : List Char) :
    List CustomRule → Option String
  | [] => none
  | rule :: rest =>
    if rule.command ≠ command then
      customRulesGo tokens command subcommand short rest
    else if (match rule.subcommand with
             | none => false
             | some sc => subcommand ≠ some sc) then
      customRulesGo tokens command subcommand short rest
    else if ruleBlockArgHit rule tokens short then
      some ("[" ++ rule.name ++ "] " ++ rule.reason)
    else customRulesGo tokens command subcommand short rest

/-- `check_custom_rules`. -/
def checkCustomRules (tokens : List String) (rules : List CustomRule) :
    Option String :=
  if tokens = [] || rules = [] then none
  else
    customRulesGo tokens (normalizeCommand (tokens.headD ""))
      (extractSubcommand tokens) (shortOpts tokens) rules

/-! ## 4.G `find` analyzer (`_find_dangerous_action`) -/

/-- Predicates/actions that consume exactly one argument. -/
def findConsumesOne : List String :=
  ["-name", "-iname", "-path", "-ipath", "-wholename", "-iwholename",
   "-regex", "-iregex", "-lname", "-ilname", "-samefile", "-newer",
   "-newerxy", "-perm", "-user", "-group", "-printf", "-fprintf",
   "-fprint", "-fprint0", "-fls"]

def findExecLike : List String := ["-exec", "-execdir", "-ok", "-okdir"]

def reasonFindExecRmRf : String :=
  "find -exec rm -rf runs destructive deletion on matched files. Use find -print first to verify targets."

def reasonFindDeleteWalk : String :=
  "find -delete permanently removes files matching the criteria. Use find -print first to verify targets."

/-- The inspection of one collected `-exec … ;` block: after wrapper
stripping and `busybox rm` indirection, is the command effectively
`rm -rf`? -/
def findExecRmCheck (execTokens : List String) : Bool :=
  if execTokens = [] then false
  else
    match stripWrappers execTokens with
    | [] => false
    | e0 :: eRest =>
      let cmd0 := normalizeCmdToken e0
      let rmArgs :=
        if cmd0 = "busybox" then
          match eRest with
          | a :: arest => if normalizeCmdToken a = "rm" then some arest else none
          | [] => none
        else if cmd0 = "rm" then some eRest
        else none
      match rmArgs with
      | none => false
      | some args =>
        let opts := args.takeWhile (fun t => t ≠ "--")
        let optsLower := opts.map lowerStr
        let short := shortOpts opts
        (optsLower.contains "--recursive" || short.contains 'r' ||
          short.contains 'R') &&
        (optsLower.contains "--force" || short.contains 'f')

/-- The left-to-right walk of `_find_dangerous_action`.  The walk consumes
at least one token per step, so it is run with fuel equal to the argument
count (each step also spends one fuel, keeping the recursion structural);
the fuel can therefore never run out. -/
def findWalkF : Nat → List String → Option String
  | 0, _ => none
  | _ + 1, [] => none
  | fuel + 1, a :: rest =>
    let tok := lowerStr (stripTokenWrappers a)
    if tok ∈ findExecLike then
      let execToks := rest.takeWhile
        (fun t => stripTokenWrappers t ≠ ";" && stripTokenWrappers t ≠ "+")
      let rem := rest.drop execToks.length
      if findExecRmCheck execToks then some reasonFindExecRmRf
      else findWalkF fuel (rem.drop 1)
    else if tok ∈ findConsumesOne then findWalkF fuel (rest.drop 1)
    else if tok = "-delete" then some reasonFindDeleteWalk
    else findWalkF fuel rest

/-- `_find_dangerous_action`. -/
def findDangerousAction (args : List String) : Option String :=
  findWalkF args.length args

/-! ## Regex matchers of the text-level fallback detectors

Each Python `re.search` is translated into a hand-written matcher over
lists of characters; `re.search` semantics (a match exists somewhere) is an
existential over start positions, realised with `List.any` over all
suffixes, and every `*`/`+` is an existential over splits. -/

def isWordChar (c : Char) : Bool := c.isAlphanum || c = '_'

def boundaryAfterWord : List Char → Bool
  | [] => true
  | c :: _ => !(isWordChar c)

def boundaryBeforeWord : Option Char → Bool
  | none => true
  | some c => !(isWordChar c)

/-- The class `[^\n;|&]` of the rm/find detector regexes. -/
def notSegBreak (c : Char) : Bool := !(c = '\n' || c = ';' || c = '|' || c = '&')

/-- The class `[^\s\x27\";|&]` of the optional `/…/` path prefix. -/
def rmPathChar (c : Char) : Bool :=
  !(isSpaceChar c || c = '\'' || c = '"' || c = ';' || c = '|' || c = '&')

/-- All splits of a list into prefix and suffix, in order. -/
def splitsGo (pre : List Char) : List Char → List (List Char × List Char)
  | [] => [(pre, [])]
  | c :: rest => (pre, c :: rest) :: splitsGo (pre ++ [c]) rest

def splitsOf (l : List Char) : List (List Char × List Char) := splitsGo [] l

def matchLit (l lit : List Char) : Option (List Char) :=
  if lit.isPrefixOf l then some (l.drop lit.length) else none

/-- `\s+` followed by a non-space continuation (maximal munch is exact
because every continuation in these regexes starts with a non-space). -/
def spacePlus : List Char → Option (List Char)
  | c :: rest => if isSpaceChar c then some (rest.dropWhile isSpaceChar) else none
  | [] => none

/-- `\s-X\b` for a single letter `X`. -/
def matchSpDashLetter (l : List Char) (x : Char) : Option (List Char) :=
  match l with
  | s :: '-' :: c :: rest =>
    if isSpaceChar s && c = x && boundaryAfterWord rest then some rest else none
  | _ => none

/-- `\s` followed by a literal followed by `\b`. -/
def matchSpLit (l lit : List Char) : Option (List Char) :=
  match l with
  | s :: rest =>
    if isSpaceChar s && lit.isPrefixOf rest then
      let rem := rest.drop lit.length
      if boundaryAfterWord rem then some rem else none
    else none
  | [] => none

/-- `[^\n;|&]*` followed by a continuation. -/
def gapThen (l : List Char) (p : List Char → Bool) : Bool :=
  (splitsOf l).any (fun pr => pr.1.all notSegBreak && p pr.2)

/-- `[a-z]*` followed by a continuation. -/
def lowerStarThen (l : List Char) (p : List Char → Bool) : Bool :=
  (splitsOf l).any
    (fun pr => pr.1.all (fun c => 'a' ≤ c && c ≤ 'z') && p pr.2)

/-- `[a-z]*x[a-z]*y\b`. -/
def matchBundled (l : List Char) (x y : Char) : Bool :=
  lowerStarThen l (fun l1 =>
    match l1 with
    | c :: l2 =>
      c = x && lowerStarThen l2 (fun l3 =>
        match l3 with
        | d :: l4 => d = y && boundaryAfterWord l4
        | [] => false)
    | [] => false)

/-- The five force/recursive alternatives of the rm detector regex. -/
def rmAltMatch (l : List Char) : Bool :=
  (match l with
   | s :: '-' :: l2 =>
     isSpaceChar s && (matchBundled l2 'r' 'f' || matchBundled l2 'f' 'r')
   | _ => false) ||
  (match matchSpDashLetter l 'r' with
   | some rem => gapThen rem (fun l2 => (matchSpDashLetter l2 'f').isSome)
   | none => false) ||
  (match matchSpDashLetter l 'f' with
   | some rem => gapThen rem (fun l2 => (matchSpDashLetter l2 'r').isSome)
   | none => false) ||
  (match matchSpLit l "--recursive".data with
   | some rem => gapThen rem (fun l2 => (matchSpLit l2 "--force".data).isSome)
   | none => false) ||
  (match matchSpLit l "--force".data with
   | some rem => gapThen rem (fun l2 => (matchSpLit l2 "--recursive".data).isSome)
   | none => false)

/-- `rm\b[^\n;|&]*(?:…)` after the optional path prefix. -/
def rmAfterName (l : List Char) : Bool :=
  match l with
  | 'r' :: 'm' :: rest => boundaryAfterWord rest && gapThen rest rmAltMatch
  | _ => false

/-- `(?:/[^\s\x27\";|&]+/)?rm\b…`. -/
def rmWithOptPath (l : List Char) : Bool :=
  rmAfterName l ||
  (match l with
   | '/' :: rest =>
     (splitsOf rest).any (fun pr =>
       pr.1 ≠ [] && pr.1.all rmPathChar &&
       (match pr.2 with
        | '/' :: rest2 => rmAfterName rest2
        | _ => false))
   | _ => false)

/-- The full rm detector regex of `_dangerous_in_text`, with its
`(?<![\w/\\])` look-behind. -/
def rmRfTextMatch (l : List Char) : Bool :=
  (searchStarts l).any (fun st =>
    (match st.1 with
     | none => true
     | some c => !(isWordChar c || c = '/' || c = '\\')) &&
    rmWithOptPath st.2)

/-- `\bgit\s+push\s+-f\b`. -/
def gitPushDashFMatch (l : List Char) : Bool :=
  (searchStarts l).any (fun st =>
    boundaryBeforeWord st.1 &&
    (match matchLit st.2 "git".data with
     | some r1 =>
       (match spacePlus r1 with
        | some r2 =>
          (match matchLit r2 "push".data with
           | some r3 =>
             (match spacePlus r3 with
              | some r4 =>
                (match matchLit r4 "-f".data with
                 | some r5 => boundaryAfterWord r5
                 | none => false)
              | none => false)
           | none => false)
        | none => false)
     | none => false))

/-- `\bgit\s+W\b` for a literal word `W` (`branch`, `restore`). -/
def gitWordPair (l w : List Char) : Bool :=
  (searchStarts l).any (fun st =>
    boundaryBeforeWord st.1 &&
    (match matchLit st.2 "git".data with
     | some r1 =>
       (match spacePlus r1 with
        | some r2 =>
          (match matchLit r2 w with
           | some r3 => boundaryAfterWord r3
           | none => false)
        | none => false)
     | none => false))

/-- `\s-D\b` (case-sensitive, on the original text). -/
def dashDMatch (l : List Char) : Bool :=
  (searchStarts l).any (fun st => (matchSpDashLetter st.2 'D').isSome)

/-- `\bfind\b[^\n;|&]*\s-delete\b`. -/
def findDeleteTextMatch (l : List Char) : Bool :=
  (searchStarts l).any (fun st =>
    boundaryBeforeWord st.1 &&
    (match matchLit st.2 "find".data with
     | some r1 =>
       boundaryAfterWord r1 &&
       gapThen r1 (fun l2 => (matchSpLit l2 "-delete".data).isSome)
     | none => false))

/-- `\bTMPDIR=` (case-sensitive, on the raw segment). -/
def tmpdirAssignedMatch (l : List Char) : Bool :=
  (searchStarts l).any (fun st =>
    boundaryBeforeWord st.1 && "TMPDIR=".data.isPrefixOf st.2)

/-! ## Text-level fallback detectors (`_dangerous_in_text`,
`_dangerous_find_delete_in_text`) -/

def reasonTextRmRf : String :=
  "rm -rf is destructive. List files first, then delete individually."

/-- `_dangerous_in_text`. -/
def dangerousInText (text : String) : Option String :=
  let original := text.data
  let t := original.map Char.toLower
  if rmRfTextMatch t then some reasonTextRmRf
  else if containsChars t "git reset --hard".data then some reasonGitResetHard
  else if containsChars t "git reset --merge".data then some reasonGitResetMerge
  else if containsChars t "git clean -f".data ||
      containsChars t "git clean --force".data then some reasonGitCleanForce
  else if (containsChars t "git push --force".data || gitPushDashFMatch t) &&
      !containsChars t "--force-with-lease".data then some reasonGitPushForce
  else if gitWordPair t "branch".data && dashDMatch original then
    some reasonGitBranchDeleteForce
  else if containsChars t "git stash drop".data then some reasonGitStashDrop
  else if containsChars t "git stash clear".data then some reasonGitStashClear
  else if containsChars t "git checkout --".data then
    some reasonGitCheckoutDoubleDash
  else if gitWordPair t "restore".data && !containsChars t "--staged".data &&
      !containsChars t "--help".data && !containsChars t "--version".data then
    if containsChars t "--worktree".data then some reasonGitRestoreWorktree
    else some reasonGitRestore
  else none

def reasonTextFindDelete : String :=
  "find -delete permanently deletes matched files. Use -print first."

/-- `_dangerous_find_delete_in_text`: best-effort `find -delete` detection
with the `echo `/`rg ` first-word special case. -/
def dangerousFindDeleteInText (text : String) : Option String :=
  let t := text.data.map Char.toLower
  let stripped := t.dropWhile isSpaceChar
  if "echo ".data.isPrefixOf stripped || "rg ".data.isPrefixOf stripped then none
  else if findDeleteTextMatch t then some reasonTextFindDelete
  else none

/-! ## Orchestrator helpers (hook.py) -/

def maxRecursionDepth : Nat := 5

def strictSuffix : String := " [strict mode - disable with: unset SAFETY_NET_STRICT]"

def paranoidInterpSuffix : String :=
  " [paranoid mode - disable with: unset SAFETY_NET_PARANOID SAFETY_NET_PARANOID_INTERPRETERS]"

def reasonRecursionLimit : String := "Command analysis recursion limit reached."

def reasonXargsRmRf : String :=
  "xargs can feed arbitrary input to rm -rf. List files first, then delete individually."

def reasonParallelRmRf : String :=
  "parallel can feed arbitrary input to rm -rf. List files first, then delete individually."

def shellNames : List String := ["bash", "sh", "zsh", "dash", "ksh"]

def pythonishNames : List String := ["python", "python3", "node", "ruby", "perl"]

/-- One combined short-option token of a shell whose letters are within
`{c,l,i,s}` and include `c` (the bundled `-lc` forms of
`_extract_dash_c_arg` / `_has_shell_dash_c`). -/
def isBundledDashC (tok : String) : Bool :=
  startsWithStr tok "-" && tok.length > 1 &&
  (tok.data.drop 1).all Char.isAlpha &&
  (tok.data.drop 1).contains 'c' &&
  (tok.data.drop 1).all (fun c => c = 'c' || c = 'l' || c = 'i' || c = 's')

def dashCGo : List String → Option String
  | [] => none
  | tok :: rest =>
    if tok = "--" then none
    else if tok = "-c" then rest.head?
    else if isBundledDashC tok then rest.head?
    else dashCGo rest

/-- `_extract_dash_c_arg`. -/
def extractDashCArg (tokens : List String) : Option String :=
  match tokens with
  | [] => none
  | _ :: rest => dashCGo rest

def hasDashCGo : List String → Bool
  | [] => false
  | tok :: rest =>
    if tok = "--" then false
    else if tok = "-c" then true
    else if isBundledDashC tok then true
    else hasDashCGo rest

/-- `_has_shell_dash_c`. -/
def hasShellDashC (tokens : List String) : Bool :=
  match tokens with
  | [] => false
  | _ :: rest => hasDashCGo rest

def pythonishGo : List String → Option String
  | [] => none
  | tok :: rest =>
    if tok = "--" then none
    else if tok = "-c" || tok = "-e" then rest.head?
    else pythonishGo rest

/-- `_extract_pythonish_code_arg`. -/
def extractPythonishCodeArg (tokens : List String) : Option String :=
  match tokens with
  | [] => none
  | _ :: rest => pythonishGo rest

/-- `_rm_has_recursive_force`. -/
def rmHasRecursiveForce (tokens : List String) : Bool :=
  match tokens with
  | [] => false
  | _ :: rest =>
    let opts := rest.takeWhile (fun t => t ≠ "--")
    let optsLower := opts.map lowerStr
    let short := shortOpts opts
    (optsLower.contains "--recursive" || short.contains 'r' ||
      short.contains 'R') &&
    (optsLower.contains "--force" || short.contains 'f')

/-! ## 4.H `xargs` parser -/

def xargsConsumesValue : List String :=
  ["-a", "-I", "-J", "-L", "-l", "-n", "-R", "-S", "-s", "-P", "-d", "-E",
   "--arg-file", "--delimiter", "--eof", "--max-args", "--max-lines",
   "--max-procs", "--max-chars", "--process-slot-var"]

def xargsLongValueAttached : List String :=
  ["--arg-file=", "--delimiter=", "--max-args=", "--max-lines=",
   "--max-procs=", "--max-chars=", "--process-slot-var=", "--eof="]

def digitsAfter2 (tok : String) : Bool :=
  (tok.data.drop 2).all Char.isDigit

/-- The option scan of `_extract_xargs_child_command`; returns the tokens
from the child-command position on (`[]` when the scan consumes
everything). -/
def xargsScan : List String → List String
  | [] => []
  | tok :: rest =>
    if tok = "--" then rest
    else if !startsWithStr tok "-" || tok = "-" then tok :: rest
    else if startsWithStr tok "--" then
      if tok ∈ xargsConsumesValue then
        match rest with
        | [] => []
        | _ :: r2 => xargsScan r2
      else xargsScan rest
    else if tok = "-i" then xargsScan rest
    else if tok ∈ xargsConsumesValue then
      match rest with
      | [] => []
      | _ :: r2 => xargsScan r2
    else if startsWithStr tok "-I" && tok.length > 2 then xargsScan rest
    else if startsWithStr tok "-i" && tok.length > 2 then xargsScan rest
    else if startsWithStr tok "-n" && tok.length > 2 && digitsAfter2 tok then
      xargsScan rest
    else if startsWithStr tok "-P" && tok.length > 2 && digitsAfter2 tok then
      xargsScan rest
    else if startsWithStr tok "-L" && tok.length > 2 && digitsAfter2 tok then
      xargsScan rest
    else if startsWithStr tok "-R" && tok.length > 2 && digitsAfter2 tok then
      xargsScan rest
    else if startsWithStr tok "-S" && tok.length > 2 && digitsAfter2 tok then
      xargsScan rest
    else if startsWithStr tok "-s" && tok.length > 2 && digitsAfter2 tok then
      xargsScan rest
    else if startsWithStr tok "-a" && tok.length > 2 then xargsScan rest
    else if startsWithStr tok "-d" && tok.length > 2 then xargsScan rest
    else if startsWithStr tok "-E" && tok.length > 2 then xargsScan rest
    else if startsWithStr tok "-J" && tok.length > 2 then xargsScan rest
    else xargsScan rest

/-- `_extract_xargs_child_command`. -/
def extractXargsChildCommand (tokens : List String) : Option (List String) :=
  match tokens with
  | [] => none
  | h :: rest =>
    if normalizeCmdToken h ≠ "xargs" then none
    else
      match xargsScan rest with
      | [] => none
      | child => some child

/-- The replacement-token scan of `_xargs_replacement_tokens`; the Python
set is modelled as a list queried through membership. -/
def xargsReplGo : List String → List String
  | [] => []
  | tok :: rest =>
    if tok = "--" then []
    else if !startsWithStr tok "-" || tok = "-" then []
    else if tok = "-I" || tok = "-J" then
      match rest with
      | v :: r => v :: xargsReplGo r
      | [] => []
    else if startsWithStr tok "-I" && tok.length > 2 then
      String.mk (tok.data.drop 2) :: xargsReplGo rest
    else if startsWithStr tok "-J" && tok.length > 2 then
      String.mk (tok.data.drop 2) :: xargsReplGo rest
    else if tok = "-i" then "\x7b\x7d" :: xargsReplGo rest
    else if startsWithStr tok "-i" && tok.length > 2 then
      String.mk (tok.data.drop 2) :: xargsReplGo rest
    else if tok = "--replace" || tok = "--replace=" || tok = "--replace-str" then
      "\x7b\x7d" :: xargsReplGo rest
    else if startsWithStr tok "--replace=" then
      (if afterFirstEq tok = "" then "\x7b\x7d" else afterFirstEq tok) ::
        xargsReplGo rest
    else xargsReplGo rest

/-- `_xargs_replacement_tokens`. -/
def xargsReplacementTokens (tokens : List String) : List String :=
  match tokens with
  | [] => []
  | h :: rest =>
    if normalizeCmdToken h ≠ "xargs" then [] else xargsReplGo rest

/-! ## 4.H `parallel` parser -/

def parallelConsumesValue : List String :=
  ["-j", "--jobs", "-S", "--sshlogin", "--sshloginfile", "--results",
   "--joblog", "--workdir", "--tmpdir", "--tempdir", "--tagstring"]

/-- The option scan before the `:::` sentinel; returns the remaining
pre-sentinel tokens (the command template). -/
def parallelScan : List String → List String
  | [] => []
  | tok :: rest =>
    if tok = "--" then rest
    else if !startsWithStr tok "-" || tok = "-" then tok :: rest
    else if tok ∈ parallelConsumesValue then
      match rest with
      | [] => []
      | _ :: r2 => parallelScan r2
    else if startsWithStr tok "--" then parallelScan rest
    else if startsWithStr tok "-j" && tok.length > 2 then parallelScan rest
    else if startsWithStr tok "-S" && tok.length > 2 then parallelScan rest
    else parallelScan rest

/-- `_extract_parallel_template_and_args`: `(template, args, args_dynamic)`. -/
def extractParallelTemplateAndArgs (tokens : List String) :
    Option (List String × List String × Bool) :=
  match tokens with
  | [] => none
  | h :: rest =>
    if normalizeCmdToken h ≠ "parallel" then none
    else
      let argsDynamic := !tokens.contains ":::"
      let pre := rest.takeWhile (fun t => t ≠ ":::")
      let args := (rest.drop pre.length).drop 1
      some (parallelScan pre, args, argsDynamic)

/-! ## 4.E `rm` analyzer -/

/-- Modelled from the spec: the module `rules_rm.py` implementing
`_analyze_rm` (§4.E) is not among the sources; only its callers are.  The
embedding follows §4.E: a call is destructive iff recursive and force are
both present; `paranoid_rm` denies every destructive call; otherwise every
positional target must be a permitted scratch path — `/`, `~` and
`~username` always deny, `$TMPDIR` forms are allowed only when the segment
does not reassign `TMPDIR`, absolute paths under `/tmp` or `/var/tmp` are
allowed, command substitution or `..` deny, and anything else is allowed
only relative to a known non-home `cwd` (home detection is lexical:
`/root` or a direct `/home/<user>` entry). -/
def reasonRmTargets : String :=
  "rm -rf targets are outside the permitted scratch areas."

def reasonRmParanoid : String :=
  "rm -rf is blocked in paranoid mode."

def isHomeCwd (cwd : String) : Bool :=
  cwd = "/root" ||
  (startsWithStr cwd "/home/" && !(cwd.data.drop 6).contains '/' &&
    cwd.data.drop 6 ≠ [])

def rmTargets (tokens : List String) : List String :=
  match tokens with
  | [] => []
  | _ :: rest =>
    let before := rest.takeWhile (fun t => t ≠ "--")
    let after := (rest.drop before.length).drop 1
    before.filter (fun t => !startsWithStr t "-" || t = "-") ++ after

def rmTargetAllowed (target : String) (allowTmpdirVar : Bool)
    (cwd : Option String) : Bool :=
  if target = "/" || target = "~" || startsWithStr target "~" then false
  else if target = "$TMPDIR" || target = "$\x7bTMPDIR\x7d" ||
      target = "\"$TMPDIR\"" || startsWithStr target "$TMPDIR/" then
    allowTmpdirVar
  else if target = "/tmp" || target = "/var/tmp" ||
      startsWithStr target "/tmp/" || startsWithStr target "/var/tmp/" then
    true
  else if containsChars target.data "\x60".data ||
      containsChars target.data "$(".data ||
      containsChars target.data "..".data then false
  else
    match cwd with
    | none => false
    | some c => !isHomeCwd c

/-- Modelled from the spec: `_analyze_rm` (§4.E). -/
def analyzeRm (tokens : List String) (allowTmpdirVar : Bool)
    (cwd : Option String) (paranoid : Bool) : Option String :=
  if !rmHasRecursiveForce tokens then none
  else if paranoid then some reasonRmParanoid
  else if (rmTargets tokens).all
      (fun t => rmTargetAllowed t allowTmpdirVar cwd) then none
  else some reasonRmTargets

/-! ## 4.J Orchestrator (`_analyze_segment` / `_analyze_command`)

The Python function `_analyze_segment` is one long fall-through chain; it
is embedded as a sequence of phase functions, each phase ending either in a
decision or in a call to the next phase, mirroring the source order: parse
failure fallback, shell `-c` recursion, python-ish one-liners, `xargs`,
`parallel`, `busybox`, `git`/`rm`/`find`, embedded-command scan, text
heuristics, custom rules.  Interpreter recursion is abstracted as a
`recurse` continuation (every recursion site of the source calls
`_analyze_command(cmd, depth + 1, cwd, config)` guarded by the recursion
limit, so the continuation closes over segment, depth, cwd and config). -/

structure Flags where
  strict : Bool
  paranoidRm : Bool
  paranoidInterp : Bool
  userConfig : Option Config
deriving DecidableEq

/-- The custom-rule consultation sites of `_analyze_segment`
(`depth == 0 and config is not None and config.rules`). -/
def customPhase (tokens : List String) (depth : Nat) (cfg : Option Config) :
    Option String :=
  if depth = 0 then
    match cfg with
    | some c => if c.rules ≠ [] then checkCustomRules tokens c.rules else none
    | none => none
  else none

/-- The embedded `rm`/`git`/`find` scan over the remaining tokens (the
`for i in range(1, len(tokens))` loop of the generic branch). -/
def embeddedScan (toksTail : List String) (allowT : Bool)
    (cwd : Option String) (pRm : Bool) : Option String :=
  match toksTail with
  | [] => none
  | t :: rest =>
    let cmd := normalizeCmdToken t
    match (if cmd = "rm" then analyzeRm ("rm" :: rest) allowT cwd pRm
           else none) with
    | some r => some r
    | none =>
      match (if cmd = "git" then analyzeGit ("git" :: rest) else none) with
      | some r => some r
      | none =>
        match (if cmd = "find" then findDangerousAction rest else none) with
        | some r => some r
        | none => embeddedScan rest allowT cwd pRm

def firstSome (f : α → Option β) : List α → Option β
  | [] => none
  | a :: rest =>
    match f a with
    | some b => some b
    | none => firstSome f rest

/-- The generic branch: embedded scan, `_dangerous_in_text`, custom rules. -/
def genericTail (segment : String) (tokens : List String) (depth : Nat)
    (cwd : Option String) (cfg : Option Config) (allowT pRm : Bool) :
    Option (String × String) :=
  match embeddedScan tokens.tail allowT cwd pRm with
  | some r => some (segment, r)
  | none =>
    match dangerousInText segment with
    | some r => some (segment, r)
    | none =>
      match customPhase tokens depth cfg with
      | some r => some (segment, r)
      | none => none

/-- The `git` / `rm` / `find` head branches (specialized analyzers plus
custom rules, skipping the text heuristics), falling back to the generic
branch. -/
def gitRmFindPhase (segment : String) (tokens : List String) (head : String)
    (depth : Nat) (cwd : Option String) (cfg : Option Config)
    (allowT pRm : Bool) : Option (String × String) :=
  if head = "git" then
    match analyzeGit ("git" :: tokens.tail) with
    | some r => some (segment, r)
    | none =>
      match customPhase tokens depth cfg with
      | some r => some (segment, r)
      | none => none
  else if head = "rm" then
    match analyzeRm ("rm" :: tokens.tail) allowT cwd pRm with
    | some r => some (segment, r)
    | none =>
      match customPhase tokens depth cfg with
      | some r => some (segment, r)
      | none => none
  else if head = "find" then
    match findDangerousAction tokens.tail with
    | some r => some (segment, r)
    | none =>
      match customPhase tokens depth cfg with
      | some r => some (segment, r)
      | none => none
  else genericTail segment tokens depth cwd cfg allowT pRm

/-- The `busybox <applet>` head branch; non-`rm`/`find` applets fall
through to the following branches. -/
def busyboxPhase (segment : String) (tokens : List String) (head : String)
    (depth : Nat) (cwd : Option String) (cfg : Option Config)
    (allowT pRm : Bool) : Option (String × String) :=
  match tokens with
  | _ :: applet0 :: rest2 =>
    let applet := normalizeCmdToken applet0
    if applet = "rm" then
      match analyzeRm ("rm" :: rest2) allowT cwd pRm with
      | some r => some (segment, r)
      | none => none
    else if applet = "find" then
      match findDangerousAction rest2 with
      | some r => some (segment, r)
      | none => gitRmFindPhase segment tokens head depth cwd cfg allowT pRm
    else gitRmFindPhase segment tokens head depth cwd cfg allowT pRm
  | _ => gitRmFindPhase segment tokens head depth cwd cfg allowT pRm

/-- The tail of the `xargs` branch after the shell sub-branch: `busybox`
applet dispatch, `git`/`rm`/`find` child dispatch, custom rules. -/
def xargsAfterShells (segment : String) (tokens child : List String)
    (childHead : String) (depth : Nat) (cwd : Option String)
    (cfg : Option Config) (allowT pRm : Bool) : Option (String × String) :=
  let customT : Option (String × String) :=
    match customPhase tokens depth cfg with
    | some r => some (segment, r)
    | none => none
  let afterBusy : Option (String × String) :=
    if childHead = "git" then
      match analyzeGit ("git" :: child.tail) with
      | some r => some (segment, r)
      | none => none
    else if childHead = "rm" then
      match analyzeRm ("rm" :: child.tail) allowT cwd pRm with
      | some r => some (segment, r)
      | none => none
    else if childHead = "find" then
      match findDangerousAction child.tail with
      | some r => some (segment, r)
      | none => customT
    else customT
  if childHead = "busybox" then
    match child with
    | _ :: applet0 :: rest2 =>
      let applet := normalizeCmdToken applet0
      if applet = "rm" then
        match analyzeRm ("rm" :: rest2) allowT cwd pRm with
        | some r => some (segment, r)
        | none => none
      else if applet = "find" then
        match findDangerousAction rest2 with
        | some r => some (segment, r)
        | none => afterBusy
      else afterBusy
    | _ => afterBusy
  else afterBusy

/-- The `xargs` head branch. -/
def xargsPhase (recurse : String → Option (String × String))
    (segment : String) (tokens : List String) (depth : Nat)
    (cwd : Option String) (cfg : Option Config) (allowT pRm : Bool) :
    Option (String × String) :=
  match extractXargsChildCommand tokens with
  | none =>
    match customPhase tokens depth cfg with
    | some r => some (segment, r)
    | none => none
  | some child0 =>
    match stripWrappers child0 with
    | [] => none
    | c0 :: cRest =>
      let child := c0 :: cRest
      let childHead := normalizeCmdToken c0
      if childHead = "rm" && rmHasRecursiveForce ("rm" :: cRest) then
        some (segment, reasonXargsRmRf)
      else if childHead = "busybox" && decide (child.length ≥ 3) &&
          (match cRest with
           | a :: _ => normalizeCmdToken a = "rm"
           | [] => false) &&
          rmHasRecursiveForce ("rm" :: cRest.drop 1) then
        some (segment, reasonXargsRmRf)
      else if childHead ∈ shellNames then
        match extractDashCArg child with
        | some cmdStr =>
          let repl := xargsReplacementTokens tokens
          if repl ≠ [] && repl.contains (trimStr cmdStr) then
            some (segment,
              "xargs " ++ c0 ++ " -c can execute arbitrary commands from input.")
          else if repl ≠ [] &&
              repl.any (fun t => t ≠ "" && strContains cmdStr t) &&
              (match dangerousInText cmdStr with
               | some r => startsWithStr r "rm -rf"
               | none => false) then
            some (segment, reasonXargsRmRf)
          else
            match recurse cmdStr with
            | some r => some r
            | none =>
              xargsAfterShells segment tokens child childHead depth cwd cfg
                allowT pRm
        | none =>
          if hasShellDashC child then
            some (segment,
              "xargs " ++ c0 ++ " -c can execute arbitrary commands from input.")
          else
            xargsAfterShells segment tokens child childHead depth cwd cfg
              allowT pRm
      else
        xargsAfterShells segment tokens child childHead depth cwd cfg allowT pRm

/-- The `git`/`rm`/`find` template dispatch of the `parallel` branch,
ending in custom rules. -/
def parallelGitRmFind (segment : String) (tokens template : List String)
    (tHead : String) (args : List String) (argsDynamic : Bool) (depth : Nat)
    (cwd : Option String) (cfg : Option Config) (allowT pRm : Bool) :
    Option (String × String) :=
  let customT : Option (String × String) :=
    match customPhase tokens depth cfg with
    | some r => some (segment, r)
    | none => none
  if tHead = "git" then
    match analyzeGit ("git" :: template.tail) with
    | some r => some (segment, r)
    | none => none
  else if tHead = "rm" then
    if argsDynamic && rmHasRecursiveForce ("rm" :: template.tail) then
      some (segment, reasonParallelRmRf)
    else
      let templates :=
        if args ≠ [] then
          if template.any (fun t => strContains t "\x7b\x7d") then
            args.map (fun a => template.map (fun t => replaceStr t "\x7b\x7d" a))
          else args.map (fun a => template ++ [a])
        else [template]
      match firstSome
          (fun ts => analyzeRm ("rm" :: ts.tail) allowT cwd pRm) templates with
      | some r => some (segment, r)
      | none => none
  else if tHead = "find" then
    match findDangerousAction template.tail with
    | some r => some (segment, r)
    | none => customT
  else customT

/-- The `busybox` template dispatch of the `parallel` branch. -/
def parallelAfterShell (segment : String) (tokens template : List String)
    (tHead : String) (args : List String) (argsDynamic : Bool) (depth : Nat)
    (cwd : Option String) (cfg : Option Config) (allowT pRm : Bool) :
    Option (String × String) :=
  if tHead = "busybox" then
    match template with
    | _ :: applet0 :: rest2 =>
      let applet := normalizeCmdToken applet0
      if applet = "rm" then
        let rmTemplate := "rm" :: rest2
        if argsDynamic && rmHasRecursiveForce rmTemplate then
          some (segment, reasonParallelRmRf)
        else
          let rmTemplates :=
            if args ≠ [] then
              if rmTemplate.any (fun t => strContains t "\x7b\x7d") then
                args.map
                  (fun a => rmTemplate.map (fun t => replaceStr t "\x7b\x7d" a))
              else args.map (fun a => rmTemplate ++ [a])
            else [rmTemplate]
          match firstSome (fun ts => analyzeRm ts allowT cwd pRm) rmTemplates with
          | some r => some (segment, r)
          | none => none
      else if applet = "find" then
        match findDangerousAction rest2 with
        | some r => some (segment, r)
        | none =>
          parallelGitRmFind segment tokens template tHead args argsDynamic
            depth cwd cfg allowT pRm
      else
        parallelGitRmFind segment tokens template tHead args argsDynamic
          depth cwd cfg allowT pRm
    | _ =>
      parallelGitRmFind segment tokens template tHead args argsDynamic
        depth cwd cfg allowT pRm
  else
    parallelGitRmFind segment tokens template tHead args argsDynamic
      depth cwd cfg allowT pRm

/-- The shell-template sub-branch of the `parallel` branch (`sh -c CMD`
templates, replacement substitution, recursion). -/
def parallelShellPart (recurse : String → Option (String × String))
    (segment : String) (tokens template : List String) (tHead t0 : String)
    (args : List String) (argsDynamic : Bool) (depth : Nat)
    (cwd : Option String) (cfg : Option Config) (allowT pRm : Bool) :
    Option (String × String) :=
  let after := parallelAfterShell segment tokens template tHead args
    argsDynamic depth cwd cfg allowT pRm
  if tHead ∈ shellNames then
    match extractDashCArg template with
    | some cmdStr =>
      if strContains cmdStr "\x7b\x7d" then
        if argsDynamic then
          if trimStr cmdStr = "\x7b\x7d" then
            some (segment,
              "parallel " ++ t0 ++ " -c can execute arbitrary commands from input.")
          else if (match dangerousInText cmdStr with
                   | some r => startsWithStr r "rm -rf"
                   | none => false) then
            some (segment, reasonParallelRmRf)
          else
            match recurse cmdStr with
            | some r => some r
            | none => after
        else if args ≠ [] then
          match firstSome (fun a => recurse (replaceStr cmdStr "\x7b\x7d" a))
              args with
          | some r => some r
          | none => none
        else
          match recurse cmdStr with
          | some r => some r
          | none => after
      else
        match recurse cmdStr with
        | some r => some r
        | none => after
    | none =>
      if hasShellDashC template then
        some (segment,
          "parallel " ++ t0 ++ " -c can execute arbitrary commands from input.")
      else after
  else after

/-- The `parallel` head branch. -/
def parallelPhase (recurse : String → Option (String × String))
    (segment : String) (tokens : List String) (depth : Nat)
    (cwd : Option String) (cfg : Option Config) (allowT pRm : Bool) :
    Option (String × String) :=
  match extractParallelTemplateAndArgs tokens with
  | none => none
  | some (template0, args, argsDynamic) =>
    match stripWrappers template0 with
    | [] =>
      let customT : Option (String × String) :=
        match customPhase tokens depth cfg with
        | some r => some (segment, r)
        | none => none
      if !argsDynamic then
        match firstSome recurse args with
        | some r => some r
        | none => customT
      else customT
    | t0 :: tRest =>
      parallelShellPart recurse segment tokens (t0 :: tRest)
        (normalizeCmdToken t0) t0 args argsDynamic depth cwd cfg allowT pRm

/-- The dispatch on the normalized head token, with the `TMPDIR=`
reassignment check of the segment. -/
def dispatchPhase (recurse : String → Option (String × String))
    (segment : String) (tokens : List String) (head : String) (depth : Nat)
    (cwd : Option String) (cfg : Option Config) (fl : Flags) :
    Option (String × String) :=
  let allowT := !tmpdirAssignedMatch segment.data
  if head = "xargs" then
    xargsPhase recurse segment tokens depth cwd cfg allowT fl.paranoidRm
  else if head = "parallel" then
    parallelPhase recurse segment tokens depth cwd cfg allowT fl.paranoidRm
  else if head = "busybox" then
    busyboxPhase segment tokens head depth cwd cfg allowT fl.paranoidRm
  else gitRmFindPhase segment tokens head depth cwd cfg allowT fl.paranoidRm

/-- The python/node/ruby/perl one-liner branch. -/
def pythonishPhase (recurse : String → Option (String × String))
    (segment : String) (tokens : List String) (head : String) (depth : Nat)
    (cwd : Option String) (cfg : Option Config) (fl : Flags) :
    Option (String × String) :=
  let next := dispatchPhase recurse segment tokens head depth cwd cfg fl
  if head ∈ pythonishNames then
    match extractPythonishCodeArg tokens with
    | some code =>
      (match dangerousInText code with
       | some r => some (segment, r)
       | none =>
         match dangerousFindDeleteInText code with
         | some r => some (segment, r)
         | none =>
           if fl.paranoidInterp then
             some (segment,
               "Cannot safely analyze interpreter one-liners." ++
                 paranoidInterpSuffix)
           else next)
    | none => next
  else next

/-- The `bash/sh/zsh/dash/ksh -c` recursion branch. -/
def shellPhase (recurse : String → Option (String × String))
    (segment : String) (tokens : List String) (head : String) (depth : Nat)
    (cwd : Option String) (cfg : Option Config) (fl : Flags) :
    Option (String × String) :=
  let next := pythonishPhase recurse segment tokens head depth cwd cfg fl
  if head ∈ shellNames then
    match extractDashCArg tokens with
    | some cmdStr =>
      match recurse cmdStr with
      | some r => some r
      | none => next
    | none =>
      if fl.strict && hasShellDashC tokens then
        some (segment, "Unable to parse shell -c wrapper safely." ++ strictSuffix)
      else next
  else next

/-- The body of `_analyze_segment`, with interpreter recursion abstracted
as the `recurse` continuation. -/
def segmentBody (recurse : String → Option (String × String))
    (segment : String) (depth : Nat) (cwd : Option String)
    (cfg : Option Config) (fl : Flags) : Option (String × String) :=
  match shlexSplit segment with
  | none =>
    if fl.strict then
      some (segment, "Unable to parse shell command safely." ++ strictSuffix)
    else
      match dangerousInText segment with
      | some r => some (segment, r)
      | none =>
        match dangerousFindDeleteInText segment with
        | some r => some (segment, r)
        | none => none
  | some toks =>
    if toks = [] then none
    else
      match stripWrappers toks with
      | [] => none
      | tok0 :: tokRest =>
        shellPhase recurse segment (tok0 :: tokRest) (normalizeCmdToken tok0)
          depth cwd cfg fl

/-! ### `_segment_changes_cwd` -/

def dropGroupTokens : List String → List String
  | [] => []
  | t :: rest =>
    if t = "\x7b" || t = "(" || t = "$(" then dropGroupTokens rest
    else t :: rest

def verbThenWsOrEnd (l verb : List Char) : Bool :=
  match matchLit l verb with
  | some [] => true
  | some (c :: _) => isSpaceChar c
  | none => false

def cwdVerbCheck (l : List Char) : Bool :=
  verbThenWsOrEnd l "cd".data || verbThenWsOrEnd l "pushd".data ||
  verbThenWsOrEnd l "popd".data

def wordThenWsPlus (l w : List Char) : Option (List Char) :=
  match matchLit l w with
  | some rem => spacePlus rem
  | none => none

def cwdFallbackCore (l : List Char) : Bool :=
  cwdVerbCheck l ||
  (match wordThenWsPlus l "command".data with
   | some rem => cwdVerbCheck rem
   | none => false) ||
  (match wordThenWsPlus l "builtin".data with
   | some rem => cwdVerbCheck rem
   | none => false)

/-- The anchored fallback regex
`^\s*(?:\$\(\s*)?[\(\{]*\s*(?:command\s+|builtin\s+)?(?:cd|pushd|popd)(?:\s|$)`
(case-insensitive). -/
def cwdFallbackMatch (l0 : List Char) : Bool :=
  let l := l0.map Char.toLower
  let l1 := l.dropWhile isSpaceChar
  let l2 :=
    match l1 with
    | '$' :: '(' :: r => r.dropWhile isSpaceChar
    | _ => l1
  let l3 := (l2.dropWhile (fun c => c = '(' || c = '\x7b')).dropWhile isSpaceChar
  cwdFallbackCore l3

/-- `_segment_changes_cwd`. -/
def segmentChangesCwd (segment : String) : Bool :=
  match shlexSplit segment with
  | some tokens =>
    let t1 := dropGroupTokens tokens
    let t2 := stripWrappers t1
    let t3 :=
      match t2 with
      | h :: rest => if lowerStr h = "builtin" then rest else h :: rest
      | [] => []
    match t3 with
    | h :: _ =>
      decide (normalizeCmdToken h ∈ (["cd", "pushd", "popd"] : List String))
    | [] => cwdFallbackMatch segment.data
  | none => cwdFallbackMatch segment.data

/-! ### The fuelled analyzer

The source recursion (`_analyze_segment` at depth `d` calls
`_analyze_command` at depth `d + 1`, which calls `_analyze_segment` at
depth `d + 1` per split segment) is realised with a structural fuel
parameter consumed once per interpreter-nesting level.  Every recursion
site of the source is guarded by `depth >= _MAX_RECURSION_DEPTH`, so fuel
`6 - depth` already determines the result (proved below for claim C3); the
top-level entry uses fuel 6 at depth 0 as `main` does. -/

/-- The per-segment loop of `_analyze_command`, parameterized by the
segment analyzer; tracks `effective_cwd` and the config downgrade to
user scope after a cwd-changing segment. -/
def analyzeCommandListF
    (segA : String → Nat → Option String → Option Config → Flags →
      Option (String × String)) :
    List String → Nat → Option String → Option Config → Flags →
      Option (String × String)
  | [], _, _, _, _ => none
  | seg :: rest, depth, cwd, cfg, fl =>
    match segA seg depth cwd cfg fl with
    | some r => some r
    | none =>
      if cwd.isSome && segmentChangesCwd seg then
        analyzeCommandListF segA rest depth none fl.userConfig fl
      else analyzeCommandListF segA rest depth cwd cfg fl

/-- `_analyze_segment`, with fuel consumed at each interpreter-recursion
nesting level; fuel 0 is unreachable from the top-level entry (claim C3). -/
def analyzeSegmentF : Nat → String → Nat → Option String → Option Config →
    Flags → Option (String × String)
  | 0, _, _, _, _, _ => none
  | fuel + 1, segment, depth, cwd, cfg, fl =>
    segmentBody
      (fun cmdStr =>
        if maxRecursionDepth ≤ depth then some (segment, reasonRecursionLimit)
        else
          analyzeCommandListF (analyzeSegmentF fuel)
            (splitShellCommands cmdStr) (depth + 1) cwd cfg fl)
      segment depth cwd cfg fl

/-- `_analyze_command` at a given fuel. -/
def analyzeCommandF (fuel : Nat) (command : String) (depth : Nat)
    (cwd : Option String) (cfg : Option Config) (fl : Flags) :
    Option (String × String) :=
  analyzeCommandListF (analyzeSegmentF fuel) (splitShellCommands command)
    depth cwd cfg fl

/-- The analyzer as entered from `main`: depth 0, fuel 6. -/
def analyzeCommand (command : String) (cwd : Option String)
    (cfg : Option Config) (fl : Flags) : Option (String × String) :=
  analyzeCommandF 6 command 0 cwd cfg fl

/-- The predicate of claim C7: walking left to right, a `-delete` token
fires unless it is consumed as the argument of a predicate that consumes
one argument (fuelled like `findWalkF`). -/
def plainDeleteWalkF : Nat → List String → Bool
  | 0, _ => false
  | _ + 1, [] => false
  | fuel + 1, a :: rest =>
    let tok := lowerStr (stripTokenWrappers a)
    if tok ∈ findConsumesOne then plainDeleteWalkF fuel (rest.drop 1)
    else if tok = "-delete" then true
    else plainDeleteWalkF fuel rest

def plainDeleteWalk (args : List String) : Bool :=
  plainDeleteWalkF args.length args

/-- A token list on which the wrapper-stripping loop has reached its fixed
point: empty, or free of leading environment assignments with a head that
is none of the three wrappers. -/
def StrippedTokens (r : List String) : Prop :=
  r = [] ∨
    (stripEnvAssignments r = r ∧
      ∃ h t, r = h :: t ∧ lowerStr h ≠ "sudo" ∧ lowerStr h ≠ "env" ∧
        lowerStr h ≠ "command")

/-! ## Shared concrete material for the claim theorems -/

def noAddAllRule : CustomRule :=
  ⟨"no-add-all", "git", some "add", ["-A", "--all", "."],
   "Use git add with specific files."⟩

def demoConfig : Config := ⟨1, [noAddAllRule]⟩

def demoFlags : Flags := ⟨false, false, false, none⟩

/-! ## Claim C1: `git push` force handling -/

/-- Claim C1, as stated, is false on the code: `git push -f
--force-with-lease origin main` carries no literal `--force` and does carry
`--force-with-lease`, so the claim predicts an allow, yet the analyzer
denies it (rules_git.py line 116 denies a short `f` even in the presence of
`--force-with-lease`). -/
theorem C1_push_counterexample :
    analyzeGit ["git", "push", "-f", "--force-with-lease", "origin", "main"] =
      some reasonGitPushForce ∧
    "--force" ∉
      (["-f", "--force-with-lease", "origin", "main"].map lowerStr) := by
  constructor
  · rfl
  · decide

/-- Claim C1 (amended): for every tokenized `git push` invocation the
analyzer denies exactly when a force flag is present — the literal
`--force` (case-insensitively) or a short `f` — regardless of
`--force-with-lease`; `--force-with-lease` alone (which is neither) is
allowed. -/
theorem C1_push_amended (rest : List String) :
    analyzeGit ("git" :: "push" :: rest) =
      (if (rest.map lowerStr).contains "--force" || (shortOpts rest).contains 'f'
       then some reasonGitPushForce else none) := by
  have h1 : analyzeGit ("git" :: "push" :: rest) =
      (let restLower := rest.map lowerStr
       let short := shortOpts rest
       let hasForceWithLease := restLower.any
         (fun t => startsWithStr t "--force-with-lease")
       let hasForce := restLower.contains "--force" || short.contains 'f'
       if hasForce && !hasForceWithLease then some reasonGitPushForce
       else if restLower.contains "--force" && hasForceWithLease then
         some reasonGitPushForce
       else if short.contains 'f' && hasForceWithLease then
         some reasonGitPushForce
       else none) := rfl
  rw [h1]
  cases hF : (rest.map lowerStr).contains "--force" <;>
    cases hs : (shortOpts rest).contains 'f' <;>
      cases hl : (rest.map lowerStr).any
        (fun t => startsWithStr t "--force-with-lease") <;>
    (simp only [hF, hs, hl]; rfl)

/-! ## Claim C2: custom rules and wrapper stripping -/

/-- Claim C2, as stated, is false on the code: with the rule
`{name: no-add-all, command: git, subcommand: add}` active, the claim
predicts that the segment `sudo git add -A` is matched with head token
`sudo` and the rule does not fire (allow), yet the analyzer denies it. -/
theorem C2_custom_prestrip_counterexample :
    analyzeSegmentF 6 "sudo git add -A" 0 none (some demoConfig) demoFlags ≠
      none := by
  have h : analyzeSegmentF 6 "sudo git add -A" 0 none (some demoConfig)
      demoFlags =
      some ("sudo git add -A", "[no-add-all] Use git add with specific files.") :=
    rfl
  rw [h]
  simp

/-- Claim C2 (amended): the custom-rule matcher is consulted on the
wrapper-stripped tokens, not the original ones — `sudo git add -A` strips
to head `git` and the `no-add-all` rule fires, while the matcher applied to
the original pre-strip tokens (head `sudo`) would not have matched. -/
theorem C2_custom_poststrip_amended :
    analyzeSegmentF 6 "sudo git add -A" 0 none (some demoConfig) demoFlags =
      some ("sudo git add -A", "[no-add-all] Use git add with specific files.") ∧
    checkCustomRules ["sudo", "git", "add", "-A"] [noAddAllRule] = none ∧
    checkCustomRules (stripWrappers ["sudo", "git", "add", "-A"])
      [noAddAllRule] =
      some "[no-add-all] Use git add with specific files." := by
  refine ⟨rfl, rfl, rfl⟩

/-! ## Claim C4: unparseable segments -/

/-- Claim C4: when the token lexer reports a segment unparseable, strict
mode denies it with the cannot-parse reason carrying the strict-mode
suffix, and non-strict mode runs the two text-level fallback detectors on
the raw segment, allowing exactly when neither produces a reason. -/
theorem C4_unparseable (f : Nat) (seg : String) (d : Nat) (cwd : Option String)
    (cfg : Option Config) (fl : Flags) (h : shlexSplit seg = none) :
    (fl.strict = true →
      analyzeSegmentF (f + 1) seg d cwd cfg fl =
        some (seg, "Unable to parse shell command safely." ++ strictSuffix)) ∧
    (fl.strict = false →
      (analyzeSegmentF (f + 1) seg d cwd cfg fl = none ↔
        dangerousInText seg = none ∧ dangerousFindDeleteInText seg = none)) := by
  constructor
  · intro hs
    simp only [analyzeSegmentF, segmentBody, h, hs, if_true]
  · intro hs
    simp only [analyzeSegmentF, segmentBody, h, hs]
    cases h1 : dangerousInText seg <;>
      cases h2 : dangerousFindDeleteInText seg <;> simp [h1, h2]

/-- Witness for C4 at the unparseable segment `ls 'x` in non-strict mode. -/
theorem C4_unparseable_witness :
    analyzeSegmentF 1 "ls 'x" 0 none none demoFlags = none ↔
      dangerousInText "ls 'x" = none ∧
        dangerousFindDeleteInText "ls 'x" = none :=
  (C4_unparseable 0 "ls 'x" 0 none none demoFlags (by rfl)).2 (by rfl)

/-! ## Claim C6: the `echo `/`rg ` special case of the fallback -/

/-- Claim C6, as stated, is false on the code: the unparseable segment
`echo 'rm -rf /` has first word `echo` and merely mentions `rm -rf /`, yet
the non-strict fallback denies it — the `echo`/`rg` special case lives only
in `_dangerous_find_delete_in_text`, while `_dangerous_in_text` (the rm/git
detector) has no such exemption. -/
theorem C6_echo_counterexample :
    analyzeSegmentF 6 "echo 'rm -rf /" 0 none none demoFlags =
      some ("echo 'rm -rf /", reasonTextRmRf) := by
  rfl

/-- Claim C6 (amended): the `echo`/`rg` first-word special case applies
only to the `find -delete` text detector — for every text whose
(lowercased, left-stripped) form starts with `echo ` or `rg ` that detector
returns nothing, so an unparseable `echo` segment mentioning
`find … -delete` is allowed — while the rm/git text detector still fires on
such segments (see the counterexample). -/
theorem C6_echo_amended :
    (∀ s : String,
      ("echo ".data.isPrefixOf
          ((s.data.map Char.toLower).dropWhile isSpaceChar) = true ∨
        "rg ".data.isPrefixOf
          ((s.data.map Char.toLower).dropWhile isSpaceChar) = true) →
      dangerousFindDeleteInText s = none) ∧
    analyzeSegmentF 6 "echo 'find . -delete" 0 none none demoFlags = none := by
  constructor
  · intro s hs
    rcases hs with hs | hs <;> simp [dangerousFindDeleteInText, hs]
  · rfl

/-- Witness for the universal part of C6 at a concrete `echo` text. -/
theorem C6_echo_amended_witness :
    dangerousFindDeleteInText "echo find . -delete" = none :=
  C6_echo_amended.1 "echo find . -delete" (Or.inl (by rfl))

/-! ## Claim C7: `find -delete` positions -/

lemma findWalkF_eq_plain (fuel : Nat) :
    ∀ args : List String,
      (∀ a ∈ args, lowerStr (stripTokenWrappers a) ∉ findExecLike) →
      findWalkF fuel args =
        (if plainDeleteWalkF fuel args then some reasonFindDeleteWalk
         else none) := by
  induction fuel with
  | zero => intro args _; rfl
  | succ f ih =>
    intro args hex
    match args with
    | [] => rfl
    | a :: rest =>
      have hexa : lowerStr (stripTokenWrappers a) ∉ findExecLike :=
        hex a (List.mem_cons_self a rest)
      by_cases h1 : lowerStr (stripTokenWrappers a) ∈ findConsumesOne
      · simp only [findWalkF, plainDeleteWalkF, if_neg hexa, if_pos h1]
        exact ih (rest.drop 1)
          (fun x hx => hex x (List.mem_cons_of_mem a (List.mem_of_mem_drop hx)))
      · by_cases h2 : lowerStr (stripTokenWrappers a) = "-delete"
        · simp only [findWalkF, plainDeleteWalkF, if_neg hexa, if_neg h1,
            if_pos h2, if_true]
        · simp only [findWalkF, plainDeleteWalkF, if_neg hexa, if_neg h1,
            if_neg h2]
          exact ih rest (fun x hx => hex x (List.mem_cons_of_mem a hx))

/-- Claim C7, as stated, is false on the code: in
`find -exec -delete ;` the `-delete` token does not occupy the argument
position of a one-argument predicate (`-exec` is not one), so the claim
predicts a denial, yet the walk consumes it as part of the `-exec` block
and the analyzer allows. -/
theorem C7_find_delete_counterexample :
    findDangerousAction ["-exec", "-delete", ";"] = none ∧
    "-exec" ∉ findConsumesOne := by
  constructor
  · rfl
  · decide

/-- Claim C7 (amended): in an argument list free of
`-exec`/`-execdir`/`-ok`/`-okdir` tokens, the walk denies with the
`-delete` reason exactly when some `-delete` token is not consumed as the
argument of a one-argument predicate (so `find . -name -delete` allows);
inside an exec block a `-delete` token is consumed by the exec handling and
does not deny. -/
theorem C7_find_delete_amended (args : List String)
    (hex : ∀ a ∈ args, lowerStr (stripTokenWrappers a) ∉ findExecLike) :
    findDangerousAction args =
      (if plainDeleteWalk args then some reasonFindDeleteWalk else none) :=
  findWalkF_eq_plain args.length args hex

/-- Witness for C7 at the claim's own example `find . -name -delete`. -/
theorem C7_find_delete_witness :
    findDangerousAction [".", "-name", "-delete"] =
      (if plainDeleteWalk [".", "-name", "-delete"] then
        some reasonFindDeleteWalk else none) ∧
    plainDeleteWalk [".", "-name", "-delete"] = false :=
  ⟨C7_find_delete_amended [".", "-name", "-delete"] (by decide), by rfl⟩

/-! ## Claim C5: idempotence of wrapper stripping -/

lemma dropWhile_self_idem (p : α → Bool) (l : List α) :
    (l.dropWhile p).dropWhile p = l.dropWhile p := by
  induction l with
  | nil => rfl
  | cons a t ih =>
    by_cases h : p a
    · simp [List.dropWhile_cons, h, ih]
    · simp [List.dropWhile_cons, h]

lemma stripEnvAssignments_idem (l : List String) :
    stripEnvAssignments (stripEnvAssignments l) = stripEnvAssignments l :=
  dropWhile_self_idem _ l

lemma stripEnvAssignments_length_le (l : List String) :
    (stripEnvAssignments l).length ≤ l.length := by
  unfold stripEnvAssignments
  induction l with
  | nil => simp
  | cons a t ih =>
    by_cases h : isEnvAssignment a
    · simp only [List.dropWhile_cons, h, if_true, List.length_cons]
      omega
    · simp [List.dropWhile_cons, h]

lemma dropSudoOpts_length_le :
    ∀ l : List String, (dropSudoOpts l).length ≤ l.length := by
  intro l
  induction l with
  | nil => simp [dropSudoOpts]
  | cons t rest ih =>
    simp only [dropSudoOpts, List.length_cons]
    split_ifs <;> simp_all
    all_goals omega

lemma dropEnvOptsGo_length_le :
    ∀ (l : List String) (sk : Bool), (dropEnvOptsGo l sk).length ≤ l.length := by
  intro l
  induction l with
  | nil => intro sk; cases sk <;> simp [dropEnvOptsGo]
  | cons t rest ih =>
    intro sk
    cases sk
    · simp only [dropEnvOptsGo, List.length_cons]
      have h1 := ih true
      have h2 := ih false
      split_ifs <;> simp [List.length_cons] <;> omega
    · simp only [dropEnvOptsGo, List.length_cons]
      have := ih false
      omega

lemma dropCommandOpts_length_le :
    ∀ l : List String, (dropCommandOpts l).length ≤ l.length := by
  intro l
  induction l with
  | nil => simp [dropCommandOpts]
  | cons t rest ih =>
    simp only [dropCommandOpts, List.length_cons]
    split_ifs <;> simp_all <;> omega

lemma strippedTokens_env_fix {r : List String} (hr : StrippedTokens r) :
    stripEnvAssignments r = r := by
  rcases hr with rfl | ⟨henv, _⟩
  · rfl
  · exact henv

lemma stripWrappersLoop_succ (f : Nat) (t : List String) :
    stripWrappersLoop (f + 1) t =
      (if t = [] then t
       else
        match stripEnvAssignments t with
        | [] => []
        | h :: rest =>
          if lowerStr h = "sudo" then stripWrappersLoop f (dropSudoOpts rest)
          else if lowerStr h = "env" then
            stripWrappersLoop f (dropEnvOpts rest)
          else if lowerStr h = "command" then
            stripWrappersLoop f (dropCommandOpts rest)
          else h :: rest) := rfl

lemma loopStepNil (t : List String) (ht : t ≠ [])
    (henv : stripEnvAssignments t = []) (g : Nat) :
    stripWrappersLoop (g + 1) t = [] := by
  rw [stripWrappersLoop_succ, if_neg ht, henv]

lemma loopStepSudo (t : List String) (ht : t ≠ []) (h0 : String)
    (rest : List String) (henv : stripEnvAssignments t = h0 :: rest)
    (hs : lowerStr h0 = "sudo") (g : Nat) :
    stripWrappersLoop (g + 1) t = stripWrappersLoop g (dropSudoOpts rest) := by
  rw [stripWrappersLoop_succ, if_neg ht, henv]
  dsimp only
  rw [if_pos hs]

lemma loopStepEnv (t : List String) (ht : t ≠ []) (h0 : String)
    (rest : List String) (henv : stripEnvAssignments t = h0 :: rest)
    (hs : lowerStr h0 ≠ "sudo") (he : lowerStr h0 = "env") (g : Nat) :
    stripWrappersLoop (g + 1) t = stripWrappersLoop g (dropEnvOpts rest) := by
  rw [stripWrappersLoop_succ, if_neg ht, henv]
  dsimp only
  rw [if_neg hs, if_pos he]

lemma loopStepCommand (t : List String) (ht : t ≠ []) (h0 : String)
    (rest : List String) (henv : stripEnvAssignments t = h0 :: rest)
    (hs : lowerStr h0 ≠ "sudo") (he : lowerStr h0 ≠ "env")
    (hc : lowerStr h0 = "command") (g : Nat) :
    stripWrappersLoop (g + 1) t =
      stripWrappersLoop g (dropCommandOpts rest) := by
  rw [stripWrappersLoop_succ, if_neg ht, henv]
  dsimp only
  rw [if_neg hs, if_neg he, if_pos hc]

lemma loopStepBreak (t : List String) (ht : t ≠ []) (h0 : String)
    (rest : List String) (henv : stripEnvAssignments t = h0 :: rest)
    (hs : lowerStr h0 ≠ "sudo") (he : lowerStr h0 ≠ "env")
    (hc : lowerStr h0 ≠ "command") (g : Nat) :
    stripWrappersLoop (g + 1) t = h0 :: rest := by
  rw [stripWrappersLoop_succ, if_neg ht, henv]
  dsimp only
  rw [if_neg hs, if_neg he, if_neg hc]

lemma strippedTokens_loop_fix {r : List String} (hr : StrippedTokens r) :
    ∀ f, stripWrappersLoop f r = r := by
  intro f
  cases f with
  | zero => rfl
  | succ f =>
    rcases hr with rfl | ⟨henv, h, t, rfl, hs, he, hc⟩
    · rfl
    · rw [loopStepBreak (h :: t) (by simp) h t henv hs he hc f]

lemma stripWrappersLoop_nil (f : Nat) : stripWrappersLoop f [] = [] := by
  cases f with
  | zero => rfl
  | succ f => rw [stripWrappersLoop_succ, if_pos rfl]

lemma stripWrappersLoop_stab :
    ∀ (f : Nat) (t : List String),
      stripWrappersLoop (f + 1) t = stripWrappersLoop f t →
      StrippedTokens (stripWrappersLoop f t) := by
  intro f
  induction f with
  | zero =>
    intro t h
    rw [show stripWrappersLoop 0 t = t from rfl] at h
    show StrippedTokens t
    by_cases ht : t = []
    · subst ht; left; rfl
    · have lenv : (stripEnvAssignments t).length ≤ t.length :=
        stripEnvAssignments_length_le t
      cases henv : stripEnvAssignments t with
      | nil =>
        rw [loopStepNil t ht henv 0] at h
        exact absurd h.symm ht
      | cons h0 rest =>
        rw [henv] at lenv
        simp only [List.length_cons] at lenv
        by_cases hs : lowerStr h0 = "sudo"
        · rw [loopStepSudo t ht h0 rest henv hs 0] at h
          have hl : (dropSudoOpts rest).length ≤ rest.length :=
            dropSudoOpts_length_le rest
          rw [show stripWrappersLoop 0 (dropSudoOpts rest) = dropSudoOpts rest
            from rfl] at h
          rw [h] at hl
          omega
        · by_cases he : lowerStr h0 = "env"
          · rw [loopStepEnv t ht h0 rest henv hs he 0] at h
            have hl : (dropEnvOptsGo rest false).length ≤ rest.length :=
              dropEnvOptsGo_length_le rest false
            rw [show stripWrappersLoop 0 (dropEnvOpts rest) = dropEnvOpts rest
              from rfl] at h
            rw [show dropEnvOpts rest = dropEnvOptsGo rest false from rfl] at h
            rw [h] at hl
            omega
          · by_cases hc : lowerStr h0 = "command"
            · rw [loopStepCommand t ht h0 rest henv hs he hc 0] at h
              have hl : (dropCommandOpts rest).length ≤ rest.length :=
                dropCommandOpts_length_le rest
              rw [show stripWrappersLoop 0 (dropCommandOpts rest) =
                dropCommandOpts rest from rfl] at h
              rw [h] at hl
              omega
            · rw [loopStepBreak t ht h0 rest henv hs he hc 0] at h
              right
              refine ⟨?_, h0, rest, h.symm, hs, he, hc⟩
              rw [← h]
              have hidem := stripEnvAssignments_idem t
              rw [henv] at hidem
              exact hidem
  | succ f ih =>
    intro t h
    by_cases ht : t = []
    · subst ht
      rw [stripWrappersLoop_nil]
      left; rfl
    · cases henv : stripEnvAssignments t with
      | nil =>
        rw [loopStepNil t ht henv f]
        left; rfl
      | cons h0 rest =>
        by_cases hs : lowerStr h0 = "sudo"
        · rw [loopStepSudo t ht h0 rest henv hs (f + 1),
            loopStepSudo t ht h0 rest henv hs f] at h
          rw [loopStepSudo t ht h0 rest henv hs f]
          exact ih _ h
        · by_cases he : lowerStr h0 = "env"
          · rw [loopStepEnv t ht h0 rest henv hs he (f + 1),
              loopStepEnv t ht h0 rest henv hs he f] at h
            rw [loopStepEnv t ht h0 rest henv hs he f]
            exact ih _ h
          · by_cases hc : lowerStr h0 = "command"
            · rw [loopStepCommand t ht h0 rest henv hs he hc (f + 1),
                loopStepCommand t ht h0 rest henv hs he hc f] at h
              rw [loopStepCommand t ht h0 rest henv hs he hc f]
              exact ih _ h
            · rw [loopStepBreak t ht h0 rest henv hs he hc f]
              right
              refine ⟨?_, h0, rest, rfl, hs, he, hc⟩
              have hidem := stripEnvAssignments_idem t
              rw [henv] at hidem
              exact hidem

/-- Claim C5, as stated, is false on the code: with 21 stacked `sudo`
wrappers the 20-iteration bound cuts stripping short, and a second
application strips further. -/
theorem C5_strip_idempotent_counterexample :
    stripWrappers (stripWrappers (List.replicate 21 "sudo" ++ ["ls"])) ≠
      stripWrappers (List.replicate 21 "sudo" ++ ["ls"]) := by
  decide

/-- Claim C5 (amended): wrapper stripping is idempotent on every token list
whose stripping loop reaches its fixed point within the 20-iteration bound
(one more iteration would change nothing); with more than 20 stacked
wrappers the bound can cut stripping short and a second application strips
further (see the counterexample). -/
theorem C5_strip_idempotent_amended (t : List String)
    (h : stripWrappersLoop 21 t = stripWrappersLoop 20 t) :
    stripWrappers (stripWrappers t) = stripWrappers t := by
  have hs := stripWrappersLoop_stab 20 t h
  show stripEnvAssignments
      (stripWrappersLoop 20
        (stripEnvAssignments (stripWrappersLoop 20 t))) =
    stripEnvAssignments (stripWrappersLoop 20 t)
  rw [strippedTokens_env_fix hs, strippedTokens_loop_fix hs,
    strippedTokens_env_fix hs]

/-- Witness for C5 at the two-token list `sudo ls`. -/
theorem C5_strip_idempotent_witness :
    stripWrappers (stripWrappers ["sudo", "ls"]) = stripWrappers ["sudo", "ls"] :=
  C5_strip_idempotent_amended ["sudo", "ls"] (by decide)

/-! ## Claim C10: case-insensitive wrapper names -/

lemma lowerStr_no_eq_char {s w : String} (h : lowerStr s = w)
    (hw : '=' ∉ w.data) : '=' ∉ s.data := by
  intro hs
  apply hw
  have hm : Char.toLower '=' ∈ s.data.map Char.toLower :=
    List.mem_map_of_mem _ hs
  have hd : (lowerStr s).data = s.data.map Char.toLower := rfl
  rw [h] at hd
  rw [← hd] at hm
  rw [show Char.toLower '=' = '=' from rfl] at hm
  exact hm

lemma isEnvAssignment_false_of_no_eq {s : String} (h : '=' ∉ s.data) :
    isEnvAssignment s = false := by
  have hc : s.data.contains '=' = false := by
    rw [Bool.eq_false_iff]
    intro hc
    exact h (List.elem_iff.mp hc)
  unfold isEnvAssignment
  rw [hc]
  rfl

/-- Claim C10: wrapper recognition is case-insensitive on the wrapper
name — stripping a token list headed by any case variant of `sudo`, `env`
or `command` gives the same result as the lowercase form. -/
theorem C10_case_insensitive_wrappers (s : String) (t : List String)
    (h : lowerStr s = "sudo" ∨ lowerStr s = "env" ∨ lowerStr s = "command") :
    stripWrappers (s :: t) = stripWrappers (lowerStr s :: t) := by
  have hne : '=' ∉ s.data := by
    rcases h with h | h | h
    · exact lowerStr_no_eq_char h (by decide)
    · exact lowerStr_no_eq_char h (by decide)
    · exact lowerStr_no_eq_char h (by decide)
  have henvA : isEnvAssignment s = false := isEnvAssignment_false_of_no_eq hne
  have hstrip : stripEnvAssignments (s :: t) = s :: t := by
    simp [stripEnvAssignments, List.dropWhile_cons, henvA]
  unfold stripWrappers
  rw [show (20 : Nat) = 19 + 1 from rfl]
  rcases h with h | h | h
  · rw [h]
    rw [loopStepSudo (s :: t) (by simp) s t hstrip h 19,
      loopStepSudo ("sudo" :: t) (by simp) "sudo" t
        (by simp [stripEnvAssignments, List.dropWhile_cons,
          show isEnvAssignment "sudo" = false from rfl])
        (by rfl) 19]
  · rw [h]
    rw [loopStepEnv (s :: t) (by simp) s t hstrip (by rw [h]; decide) h 19,
      loopStepEnv ("env" :: t) (by simp) "env" t
        (by simp [stripEnvAssignments, List.dropWhile_cons,
          show isEnvAssignment "env" = false from rfl])
        (by decide) (by rfl) 19]
  · rw [h]
    rw [loopStepCommand (s :: t) (by simp) s t hstrip (by rw [h]; decide)
        (by rw [h]; decide) h 19,
      loopStepCommand ("command" :: t) (by simp) "command" t
        (by simp [stripEnvAssignments, List.dropWhile_cons,
          show isEnvAssignment "command" = false from rfl])
        (by decide) (by decide) (by rfl) 19]

/-- Witness for C10: upper-cased `SUDO` strips like `sudo`. -/
theorem C10_case_insensitive_witness :
    stripWrappers ["SUDO", "rm", "-rf", "/"] =
      stripWrappers ["sudo", "rm", "-rf", "/"] := by
  have h := C10_case_insensitive_wrappers "SUDO" ["rm", "-rf", "/"]
    (Or.inl (by rfl))
  rw [show lowerStr "SUDO" = "sudo" from rfl] at h
  exact h

/-! ## Claim C3: the recursion depth bound -/

lemma analyzeCommandListF_congr
    (segA segB : String → Nat → Option String → Option Config → Flags →
      Option (String × String))
    (d : Nat) (fl : Flags)
    (h : ∀ s cwd cfg, segA s d cwd cfg fl = segB s d cwd cfg fl) :
    ∀ (segs : List String) (cwd : Option String) (cfg : Option Config),
      analyzeCommandListF segA segs d cwd cfg fl =
        analyzeCommandListF segB segs d cwd cfg fl := by
  intro segs
  induction segs with
  | nil => intro cwd cfg; rfl
  | cons s rest ih =>
    intro cwd cfg
    simp only [analyzeCommandListF]
    rw [h s cwd cfg]
    cases segB s d cwd cfg fl with
    | some r => rfl
    | none =>
      dsimp only
      by_cases hc : (cwd.isSome && segmentChangesCwd s) = true
      · rw [if_pos hc, if_pos hc]
        exact ih none fl.userConfig
      · rw [if_neg hc, if_neg hc]
        exact ih cwd cfg

lemma analyzeSegmentF_mono :
    ∀ (f g : Nat) (seg : String) (d : Nat) (cwd : Option String)
      (cfg : Option Config) (fl : Flags), 1 ≤ f → 1 ≤ g → 6 ≤ f + d →
      6 ≤ g + d →
      analyzeSegmentF f seg d cwd cfg fl =
        analyzeSegmentF g seg d cwd cfg fl := by
  intro f
  induction f with
  | zero =>
    intro g seg d cwd cfg fl h1
    exact absurd h1 (by omega)
  | succ f ih =>
    intro g seg d cwd cfg fl _ hg1 hfd hgd
    obtain ⟨g', rfl⟩ : ∃ g', g = g' + 1 := ⟨g - 1, by omega⟩
    simp only [analyzeSegmentF]
    congr 1
    funext cmdStr
    by_cases hd : maxRecursionDepth ≤ d
    · rw [if_pos hd, if_pos hd]
    · rw [if_neg hd, if_neg hd]
      apply analyzeCommandListF_congr
      intro s cwd' cfg'
      have hd4 : d ≤ 4 := by
        unfold maxRecursionDepth at hd
        omega
      exact ih g' s (d + 1) cwd' cfg' fl (by omega) (by omega) (by omega)
        (by omega)

/-- Claim C3: (a) the analyzer's result is already determined by fuel
`6 − depth` — every fuel budget covering the depth-5 bound gives the same
result, which is the formal content of the recursion-depth counter never
exceeding 5 on any path; (b) an interpreter recursion attempted when the
depth counter has reached the bound returns the recursion-limit denial,
never a silent allow. -/
theorem C3_depth_bound :
    (∀ (f g : Nat) (seg : String) (d : Nat) (cwd : Option String)
        (cfg : Option Config) (fl : Flags), 1 ≤ f → 1 ≤ g → 6 ≤ f + d →
        6 ≤ g + d →
        analyzeSegmentF f seg d cwd cfg fl =
          analyzeSegmentF g seg d cwd cfg fl) ∧
    (∀ (f : Nat) (seg : String) (toks : List String) (h0 : String)
        (t : List String) (cmdStr : String) (d : Nat) (cwd : Option String)
        (cfg : Option Config) (fl : Flags), maxRecursionDepth ≤ d →
        shlexSplit seg = some toks → toks ≠ [] →
        stripWrappers toks = h0 :: t →
        normalizeCmdToken h0 ∈ shellNames →
        extractDashCArg (h0 :: t) = some cmdStr →
        analyzeSegmentF (f + 1) seg d cwd cfg fl =
          some (seg, reasonRecursionLimit)) := by
  constructor
  · exact analyzeSegmentF_mono
  · intro f seg toks h0 t cmdStr d cwd cfg fl hd hsp hne hst hmem hdc
    simp only [analyzeSegmentF]
    unfold segmentBody
    rw [hsp]
    dsimp only
    rw [if_neg hne, hst]
    dsimp only
    unfold shellPhase
    rw [if_pos hmem, hdc]
    dsimp only
    rw [if_pos hd]

/-- Witness for C3: fuel 6 and fuel 7 agree at depth 0, and a `bash -c`
segment at depth 5 is denied with the recursion-limit reason. -/
theorem C3_depth_bound_witness :
    analyzeSegmentF 6 "ls -la" 0 none none demoFlags =
      analyzeSegmentF 7 "ls -la" 0 none none demoFlags ∧
    analyzeSegmentF 3 "bash -c 'ls'" 5 none none demoFlags =
      some ("bash -c 'ls'", reasonRecursionLimit) :=
  ⟨C3_depth_bound.1 6 7 "ls -la" 0 none none demoFlags (by omega) (by omega)
      (by omega) (by omega),
   C3_depth_bound.2 2 "bash -c 'ls'" ["bash", "-c", "ls"] "bash" ["-c", "ls"]
      "ls" 5 none none demoFlags (by decide) (by rfl) (by decide) (by rfl)
      (by decide) (by rfl)⟩

/-! ## Claim C8: custom rules only at depth 0 -/

lemma customPhase_ne_zero {d : Nat} (hd : d ≠ 0) (t : List String)
    (cfg : Option Config) : customPhase t d cfg = none := by
  simp [customPhase, hd]

lemma genericTail_cfg (seg : String) (tokens : List String) (d : Nat)
    (cwd : Option String) (cfg cfg' : Option Config) (aT pRm : Bool)
    (hd : d ≠ 0) :
    genericTail seg tokens d cwd cfg aT pRm =
      genericTail seg tokens d cwd cfg' aT pRm := by
  unfold genericTail
  rw [customPhase_ne_zero hd, customPhase_ne_zero hd]

lemma gitRmFindPhase_cfg (seg : String) (tokens : List String) (head : String)
    (d : Nat) (cwd : Option String) (cfg cfg' : Option Config) (aT pRm : Bool)
    (hd : d ≠ 0) :
    gitRmFindPhase seg tokens head d cwd cfg aT pRm =
      gitRmFindPhase seg tokens head d cwd cfg' aT pRm := by
  unfold gitRmFindPhase
  simp only [customPhase_ne_zero hd,
    genericTail_cfg seg tokens d cwd cfg cfg' aT pRm hd]

lemma busyboxPhase_cfg (seg : String) (tokens : List String) (head : String)
    (d : Nat) (cwd : Option String) (cfg cfg' : Option Config) (aT pRm : Bool)
    (hd : d ≠ 0) :
    busyboxPhase seg tokens head d cwd cfg aT pRm =
      busyboxPhase seg tokens head d cwd cfg' aT pRm := by
  unfold busyboxPhase
  simp only [gitRmFindPhase_cfg seg tokens head d cwd cfg cfg' aT pRm hd]

lemma xargsAfterShells_cfg (seg : String) (tokens child : List String)
    (childHead : String) (d : Nat) (cwd : Option String)
    (cfg cfg' : Option Config) (aT pRm : Bool) (hd : d ≠ 0) :
    xargsAfterShells seg tokens child childHead d cwd cfg aT pRm =
      xargsAfterShells seg tokens child childHead d cwd cfg' aT pRm := by
  unfold xargsAfterShells
  simp only [customPhase_ne_zero hd]

lemma xargsPhase_cfg (r₁ r₂ : String → Option (String × String))
    (seg : String) (tokens : List String) (d : Nat) (cwd : Option String)
    (cfg cfg' : Option Config) (aT pRm : Bool) (hd : d ≠ 0)
    (hr : ∀ c, r₁ c = r₂ c) :
    xargsPhase r₁ seg tokens d cwd cfg aT pRm =
      xargsPhase r₂ seg tokens d cwd cfg' aT pRm := by
  unfold xargsPhase
  cases hx : extractXargsChildCommand tokens with
  | none =>
    dsimp only
    simp only [customPhase_ne_zero hd]
  | some child0 =>
    dsimp only
    cases hs : stripWrappers child0 with
    | nil => rfl
    | cons c0 cRest =>
      dsimp only
      simp only [hr,
        xargsAfterShells_cfg seg tokens (c0 :: cRest) (normalizeCmdToken c0)
          d cwd cfg cfg' aT pRm hd]

lemma parallelGitRmFind_cfg (seg : String) (tokens template : List String)
    (tHead : String) (args : List String) (aD : Bool) (d : Nat)
    (cwd : Option String) (cfg cfg' : Option Config) (aT pRm : Bool)
    (hd : d ≠ 0) :
    parallelGitRmFind seg tokens template tHead args aD d cwd cfg aT pRm =
      parallelGitRmFind seg tokens template tHead args aD d cwd cfg' aT pRm := by
  unfold parallelGitRmFind
  simp only [customPhase_ne_zero hd]

lemma parallelAfterShell_cfg (seg : String) (tokens template : List String)
    (tHead : String) (args : List String) (aD : Bool) (d : Nat)
    (cwd : Option String) (cfg cfg' : Option Config) (aT pRm : Bool)
    (hd : d ≠ 0) :
    parallelAfterShell seg tokens template tHead args aD d cwd cfg aT pRm =
      parallelAfterShell seg tokens template tHead args aD d cwd cfg' aT pRm := by
  unfold parallelAfterShell
  simp only [parallelGitRmFind_cfg seg tokens template tHead args aD d cwd
    cfg cfg' aT pRm hd]

lemma parallelShellPart_cfg (r₁ r₂ : String → Option (String × String))
    (seg : String) (tokens template : List String) (tHead t0 : String)
    (args : List String) (aD : Bool) (d : Nat) (cwd : Option String)
    (cfg cfg' : Option Config) (aT pRm : Bool) (hd : d ≠ 0)
    (hr : ∀ c, r₁ c = r₂ c) :
    parallelShellPart r₁ seg tokens template tHead t0 args aD d cwd cfg
        aT pRm =
      parallelShellPart r₂ seg tokens template tHead t0 args aD d cwd cfg'
        aT pRm := by
  unfold parallelShellPart
  simp only [hr, parallelAfterShell_cfg seg tokens template tHead args aD d
    cwd cfg cfg' aT pRm hd]

lemma parallelPhase_cfg (r₁ r₂ : String → Option (String × String))
    (seg : String) (tokens : List String) (d : Nat) (cwd : Option String)
    (cfg cfg' : Option Config) (aT pRm : Bool) (hd : d ≠ 0)
    (hr : ∀ c, r₁ c = r₂ c) :
    parallelPhase r₁ seg tokens d cwd cfg aT pRm =
      parallelPhase r₂ seg tokens d cwd cfg' aT pRm := by
  unfold parallelPhase
  cases hx : extractParallelTemplateAndArgs tokens with
  | none => rfl
  | some extracted =>
    obtain ⟨template0, args, aD⟩ := extracted
    dsimp only
    cases hs : stripWrappers template0 with
    | nil =>
      dsimp only
      rw [funext hr]
      simp only [customPhase_ne_zero hd]
    | cons t0 tRest =>
      dsimp only
      exact parallelShellPart_cfg r₁ r₂ seg tokens (t0 :: tRest)
        (normalizeCmdToken t0) t0 args aD d cwd cfg cfg' aT pRm hd hr

lemma dispatchPhase_cfg (r₁ r₂ : String → Option (String × String))
    (seg : String) (tokens : List String) (head : String) (d : Nat)
    (cwd : Option String) (cfg cfg' : Option Config) (st pr pi : Bool)
    (u u' : Option Config) (hd : d ≠ 0) (hr : ∀ c, r₁ c = r₂ c) :
    dispatchPhase r₁ seg tokens head d cwd cfg ⟨st, pr, pi, u⟩ =
      dispatchPhase r₂ seg tokens head d cwd cfg' ⟨st, pr, pi, u'⟩ := by
  unfold dispatchPhase
  dsimp only
  simp only
    [xargsPhase_cfg r₁ r₂ seg tokens d cwd cfg cfg'
      (!tmpdirAssignedMatch seg.data) pr hd hr,
     parallelPhase_cfg r₁ r₂ seg tokens d cwd cfg cfg'
      (!tmpdirAssignedMatch seg.data) pr hd hr,
     busyboxPhase_cfg seg tokens head d cwd cfg cfg'
      (!tmpdirAssignedMatch seg.data) pr hd,
     gitRmFindPhase_cfg seg tokens head d cwd cfg cfg'
      (!tmpdirAssignedMatch seg.data) pr hd]

lemma pythonishPhase_cfg (r₁ r₂ : String → Option (String × String))
    (seg : String) (tokens : List String) (head : String) (d : Nat)
    (cwd : Option String) (cfg cfg' : Option Config) (st pr pi : Bool)
    (u u' : Option Config) (hd : d ≠ 0) (hr : ∀ c, r₁ c = r₂ c) :
    pythonishPhase r₁ seg tokens head d cwd cfg ⟨st, pr, pi, u⟩ =
      pythonishPhase r₂ seg tokens head d cwd cfg' ⟨st, pr, pi, u'⟩ := by
  unfold pythonishPhase
  dsimp only
  simp only [dispatchPhase_cfg r₁ r₂ seg tokens head d cwd cfg cfg'
    st pr pi u u' hd hr]

lemma shellPhase_cfg (r₁ r₂ : String → Option (String × String))
    (seg : String) (tokens : List String) (head : String) (d : Nat)
    (cwd : Option String) (cfg cfg' : Option Config) (st pr pi : Bool)
    (u u' : Option Config) (hd : d ≠ 0) (hr : ∀ c, r₁ c = r₂ c) :
    shellPhase r₁ seg tokens head d cwd cfg ⟨st, pr, pi, u⟩ =
      shellPhase r₂ seg tokens head d cwd cfg' ⟨st, pr, pi, u'⟩ := by
  unfold shellPhase
  dsimp only
  simp only [hr, pythonishPhase_cfg r₁ r₂ seg tokens head d cwd cfg cfg'
    st pr pi u u' hd hr]

lemma segmentBody_cfg_irrel
    (r₁ r₂ : String → Option (String × String)) (seg : String) (d : Nat)
    (cwd : Option String) (cfg cfg' : Option Config) (st pr pi : Bool)
    (u u' : Option Config) (hd : d ≠ 0) (hr : ∀ c, r₁ c = r₂ c) :
    segmentBody r₁ seg d cwd cfg ⟨st, pr, pi, u⟩ =
      segmentBody r₂ seg d cwd cfg' ⟨st, pr, pi, u'⟩ := by
  unfold segmentBody
  cases hx : shlexSplit seg with
  | none => rfl
  | some toks =>
    dsimp only
    by_cases ht : toks = []
    · rw [if_pos ht, if_pos ht]
    · rw [if_neg ht, if_neg ht]
      cases hs : stripWrappers toks with
      | nil => rfl
      | cons tok0 tokRest =>
        dsimp only
        exact shellPhase_cfg r₁ r₂ seg (tok0 :: tokRest)
          (normalizeCmdToken tok0) d cwd cfg cfg' st pr pi u u' hd hr

lemma analyzeCommandListF_cfg_irrel
    (segA : String → Nat → Option String → Option Config → Flags →
      Option (String × String))
    (d : Nat) (st pr pi : Bool) (u u' : Option Config)
    (hseg : ∀ s cwd cfg cfg', segA s d cwd cfg ⟨st, pr, pi, u⟩ =
      segA s d cwd cfg' ⟨st, pr, pi, u'⟩) :
    ∀ (segs : List String) (cwd : Option String) (cfg cfg' : Option Config),
      analyzeCommandListF segA segs d cwd cfg ⟨st, pr, pi, u⟩ =
        analyzeCommandListF segA segs d cwd cfg' ⟨st, pr, pi, u'⟩ := by
  intro segs
  induction segs with
  | nil => intro cwd cfg cfg'; rfl
  | cons s rest ih =>
    intro cwd cfg cfg'
    simp only [analyzeCommandListF]
    rw [hseg s cwd cfg cfg']
    cases segA s d cwd cfg' ⟨st, pr, pi, u'⟩ with
    | some r => rfl
    | none =>
      dsimp only
      by_cases hc : (cwd.isSome && segmentChangesCwd s) = true
      · rw [if_pos hc, if_pos hc]
        exact ih none u u'
      · rw [if_neg hc, if_neg hc]
        exact ih cwd cfg cfg'

lemma analyzeSegmentF_cfg_irrel :
    ∀ (f : Nat) (seg : String) (d : Nat) (cwd : Option String)
      (cfg cfg' : Option Config) (st pr pi : Bool) (u u' : Option Config),
      1 ≤ d →
      analyzeSegmentF f seg d cwd cfg ⟨st, pr, pi, u⟩ =
        analyzeSegmentF f seg d cwd cfg' ⟨st, pr, pi, u'⟩ := by
  intro f
  induction f with
  | zero => intro seg d cwd cfg cfg' st pr pi u u' hd; rfl
  | succ f ih =>
    intro seg d cwd cfg cfg' st pr pi u u' hd
    simp only [analyzeSegmentF]
    apply segmentBody_cfg_irrel _ _ seg d cwd cfg cfg' st pr pi u u'
      (by omega)
    intro c
    by_cases h5 : maxRecursionDepth ≤ d
    · rw [if_pos h5, if_pos h5]
    · rw [if_neg h5, if_neg h5]
      apply analyzeCommandListF_cfg_irrel
      intro s cwd2 cfg2 cfg2'
      exact ih s (d + 1) cwd2 cfg2 cfg2' st pr pi u u' (by omega)

/-- Claim C8: with the `no-add-all` rule active, `git add -A` is denied by
the custom rule (built-ins produced no deny) while `bash -c 'git add -A'`
is allowed, and at any recursion depth of at least 1 the analyzer's result
does not depend on the custom-rule configuration at all (neither the active
config nor the user-scope config consulted after a cwd change). -/
theorem C8_custom_rules_depth0 :
    analyzeCommand "git add -A" none (some demoConfig) demoFlags =
      some ("git add -A", "[no-add-all] Use git add with specific files.") ∧
    analyzeCommand "bash -c 'git add -A'" none (some demoConfig) demoFlags =
      none ∧
    (∀ (f : Nat) (seg : String) (d : Nat) (cwd : Option String)
        (cfg cfg' : Option Config) (st pr pi : Bool) (u u' : Option Config),
      1 ≤ d →
      analyzeSegmentF f seg d cwd cfg ⟨st, pr, pi, u⟩ =
        analyzeSegmentF f seg d cwd cfg' ⟨st, pr, pi, u'⟩) :=
  ⟨rfl, rfl, analyzeSegmentF_cfg_irrel⟩

/-- Witness for C8's universal part: at depth 1 the active custom-rule
configuration is ignored. -/
theorem C8_custom_rules_depth0_witness :
    analyzeSegmentF 5 "git add -A" 1 none (some demoConfig)
      ⟨false, false, false, none⟩ =
      analyzeSegmentF 5 "git add -A" 1 none none
        ⟨false, false, false, none⟩ :=
  C8_custom_rules_depth0.2.2 5 "git add -A" 1 none (some demoConfig) none
    false false false none none (by omega)

/-! ## C9: the shell splitter against its specification -/

lemma specFlush_eq : specFlush = splitFlush := by
  funext b a
  simp [specFlush, splitFlush]

set_option maxHeartbeats 3200000 in
lemma specSplitLoop_eq_splitLoop (cs : List Char) (prev : Option Char)
    (inS inD esc : Bool) (buf : List Char) (acc : List String) :
    specSplitLoop cs prev inS inD esc buf acc =
      splitLoop cs prev inS inD esc buf acc := by
  induction cs, prev, inS, inD, esc, buf, acc using splitLoop.induct with
  | case1 x x1 x2 x3 b a => simp [specSplitLoop, splitLoop, specFlush_eq]
  | case2 c rest prev inS inD buf acc ih =>
    cases rest with
    | nil => simp_all [specSplitLoop, splitLoop, specFlush_eq]
    | cons c2 r2 => simp_all [specSplitLoop, splitLoop, specFlush_eq]
  | case3 c rest prev inS inD esc buf acc h1 h2 ih =>
    cases rest with
    | nil => simp_all [specSplitLoop, splitLoop, specFlush_eq]
    | cons c2 r2 => simp_all [specSplitLoop, splitLoop, specFlush_eq]
  | case4 c rest prev inS inD esc buf acc h1 h2 h3 ih =>
    cases rest with
    | nil => simp_all [specSplitLoop, splitLoop, specFlush_eq]
    | cons c2 r2 => simp_all [specSplitLoop, splitLoop, specFlush_eq]
  | case5 c rest prev inS inD esc buf acc h1 h2 h3 h4 ih =>
    cases rest with
    | nil => simp_all [specSplitLoop, splitLoop, specFlush_eq]
    | cons c2 r2 => simp_all [specSplitLoop, splitLoop, specFlush_eq]
  | case6 c prev inS inD esc buf acc h1 h2 h3 h4 h5 c2 rest2 h6 ih =>
    rw [Bool.not_eq_true] at h1
    subst h1
    simp only [Bool.and_eq_true, Bool.not_eq_true'] at h5
    obtain ⟨hS, hD⟩ := h5
    subst hS; subst hD
    simp only [List.head?_cons, Bool.or_eq_true, Bool.and_eq_true,
      decide_eq_true_eq, Option.some.injEq] at h6
    rcases h6 with (⟨hc, hh⟩ | ⟨hc, hh⟩) | ⟨hc, hh⟩ <;> subst hc <;> subst hh <;>
      simp_all [specSplitLoop, splitLoop, specDelim, specFlush_eq]
  | case7 c prev inS inD esc buf acc h1 h2 h3 h4 h5 h6 =>
    simp_all
  | case8 rest prev inS inD esc buf acc h1 h5 h2 h3 h4 h6 ih =>
    cases rest with
    | nil => simp_all [specSplitLoop, splitLoop, specDelim, specFlush_eq]
    | cons c2 r2 => simp_all [specSplitLoop, splitLoop, specDelim, specFlush_eq]
  | case9 rest prev inS inD esc buf acc h1 h5 hred h2 h3 h4 h6 hno ih =>
    cases rest with
    | nil => simp_all [specSplitLoop, splitLoop, specDelim, specFlush_eq]
    | cons c2 r2 => simp_all [specSplitLoop, splitLoop, specDelim, specFlush_eq]
  | case10 rest prev inS inD esc buf acc h1 h5 hred h2 h3 h4 h6 hno ih =>
    cases rest with
    | nil => simp_all [specSplitLoop, splitLoop, specDelim, specFlush_eq]
    | cons c2 r2 => simp_all [specSplitLoop, splitLoop, specDelim, specFlush_eq]
  | case11 c rest prev inS inD esc buf acc h1 h2 h3 h4 h5 h6 hnp hna hsc ih =>
    simp only [Bool.or_eq_true, decide_eq_true_eq] at hsc
    cases rest with
    | nil =>
      rcases hsc with h | h <;> subst h <;>
        simp_all [specSplitLoop, splitLoop, specDelim, specFlush_eq]
    | cons c2 r2 =>
      rcases hsc with h | h <;> subst h <;>
        simp_all [specSplitLoop, splitLoop, specDelim, specFlush_eq]
  | case12 c rest prev inS inD esc buf acc h1 h2 h3 h4 h5 h6 hnp hna hsc ih =>
    cases rest with
    | nil => simp_all [specSplitLoop, splitLoop, specDelim, specFlush_eq]
    | cons c2 r2 => simp_all [specSplitLoop, splitLoop, specDelim, specFlush_eq]
  | case13 c rest prev inS inD esc buf acc h1 h2 h3 h4 h5 ih =>
    cases rest with
    | nil =>
      simp_all [specSplitLoop, splitLoop, specFlush_eq]
      split_ifs <;> simp_all
    | cons c2 r2 =>
      simp_all [specSplitLoop, splitLoop, specFlush_eq]
      split_ifs <;> simp_all

lemma dropTrailingSpaces_idem (m : List Char) :
    dropTrailingSpaces (dropTrailingSpaces m) = dropTrailingSpaces m := by
  unfold dropTrailingSpaces
  rw [List.reverse_reverse, dropWhile_self_idem]

lemma dropTrailing_fix (m : List Char)
    (hm : m.dropWhile isSpaceChar = m) :
    (dropTrailingSpaces m).dropWhile isSpaceChar = dropTrailingSpaces m := by
  cases hdt : dropTrailingSpaces m with
  | nil => rfl
  | cons a t =>
    have hpre : dropTrailingSpaces m <+: m := by
      unfold dropTrailingSpaces
      have h := List.dropWhile_suffix (l := m.reverse) isSpaceChar
      have h2 := List.reverse_prefix.mpr h
      rwa [List.reverse_reverse] at h2
    rw [hdt] at hpre
    obtain ⟨s, hs⟩ := hpre
    have hpa : ¬ isSpaceChar a = true := by
      intro hpa
      have h1 : m.dropWhile isSpaceChar = (t ++ s).dropWhile isSpaceChar := by
        rw [← hs]
        simp [List.dropWhile_cons, hpa]
      rw [hm] at h1
      have h2 := (List.dropWhile_suffix (l := t ++ s) isSpaceChar).sublist.length_le
      rw [← h1] at h2
      rw [← hs] at h2
      simp at h2
    simp [List.dropWhile_cons, hpa]

lemma trimChars_idem (l : List Char) :
    trimChars (trimChars l) = trimChars l := by
  unfold trimChars
  rw [dropTrailing_fix _ (dropWhile_self_idem _ _), dropTrailingSpaces_idem]

lemma splitFlush_pres (buf : List Char) (acc : List String)
    (h : ∀ s ∈ acc, s ≠ "" ∧ trimStr s = s) :
    ∀ s ∈ splitFlush buf acc, s ≠ "" ∧ trimStr s = s := by
  intro s hs
  simp only [splitFlush] at hs
  by_cases hp : trimChars buf = []
  · rw [if_pos hp] at hs
    exact h s hs
  · rw [if_neg hp] at hs
    rcases List.mem_append.mp hs with h1 | h1
    · exact h s h1
    · have hseq : s = String.mk (trimChars buf) := by simpa using h1
      subst hseq
      refine ⟨?_, ?_⟩
      · intro hemp
        apply hp
        have hd := congrArg String.data hemp
        simpa using hd
      · show String.mk (trimChars (trimChars buf)) = String.mk (trimChars buf)
        rw [trimChars_idem]

lemma splitLoop_inv :
    ∀ (cs : List Char) (prev : Option Char) (inS inD esc : Bool)
      (buf : List Char) (acc : List String),
      (∀ s ∈ acc, s ≠ "" ∧ trimStr s = s) →
      ∀ s ∈ splitLoop cs prev inS inD esc buf acc, s ≠ "" ∧ trimStr s = s := by
  intro cs prev inS inD esc buf acc
  induction cs, prev, inS, inD, esc, buf, acc using splitLoop.induct with
  | case1 x x1 x2 x3 b a =>
    intro hacc
    exact splitFlush_pres _ _ hacc
  | case2 c rest prev inS inD buf acc ih =>
    intro hacc
    cases rest with
    | nil =>
      rw [splitLoop.eq_3, if_pos rfl]
      exact ih hacc
    | cons c2 r2 =>
      rw [splitLoop.eq_2, if_pos rfl]
      exact ih hacc
  | case3 c rest prev inS inD esc buf acc h1 h2 ih =>
    intro hacc
    cases rest with
    | nil =>
      rw [splitLoop.eq_3, if_neg h1, if_pos h2]
      exact ih hacc
    | cons c2 r2 =>
      rw [splitLoop.eq_2, if_neg h1, if_pos h2]
      exact ih hacc
  | case4 c rest prev inS inD esc buf acc h1 h2 h3 ih =>
    intro hacc
    cases rest with
    | nil =>
      rw [splitLoop.eq_3, if_neg h1, if_neg h2, if_pos h3]
      exact ih hacc
    | cons c2 r2 =>
      rw [splitLoop.eq_2, if_neg h1, if_neg h2, if_pos h3]
      exact ih hacc
  | case5 c rest prev inS inD esc buf acc h1 h2 h3 h4 ih =>
    intro hacc
    cases rest with
    | nil =>
      rw [splitLoop.eq_3, if_neg h1, if_neg h2, if_neg h3, if_pos h4]
      exact ih hacc
    | cons c2 r2 =>
      rw [splitLoop.eq_2, if_neg h1, if_neg h2, if_neg h3, if_pos h4]
      exact ih hacc
  | case6 c prev inS inD esc buf acc h1 h2 h3 h4 h5 c2 rest2 h6 ih =>
    intro hacc
    rw [splitLoop.eq_2, if_neg h1, if_neg h2, if_neg h3, if_neg h4, if_pos h5,
      if_pos h6]
    exact ih (splitFlush_pres _ _ hacc)
  | case7 c prev inS inD esc buf acc h1 h2 h3 h4 h5 h6 =>
    exact absurd h6 (by simp)
  | case8 rest prev inS inD esc buf acc h1 h5 h2 h3 h4 h6 ih =>
    intro hacc
    cases rest with
    | nil =>
      rw [splitLoop.eq_3, if_neg h1, if_neg h2, if_neg h3, if_neg h4, if_pos h5,
        if_neg h6, if_pos rfl]
      exact ih (splitFlush_pres _ _ hacc)
    | cons c2 r2 =>
      rw [splitLoop.eq_2, if_neg h1, if_neg h2, if_neg h3, if_neg h4, if_pos h5,
        if_neg h6, if_pos rfl]
      exact ih (splitFlush_pres _ _ hacc)
  | case9 rest prev inS inD esc buf acc h1 h5 hred h2 h3 h4 h6 hno ih =>
    intro hacc
    cases rest with
    | nil =>
      rw [splitLoop.eq_3, if_neg h1, if_neg h2, if_neg h3, if_neg h4, if_pos h5,
        if_neg h6, if_neg hno, if_pos rfl, if_pos hred]
      exact ih hacc
    | cons c2 r2 =>
      rw [splitLoop.eq_2, if_neg h1, if_neg h2, if_neg h3, if_neg h4, if_pos h5,
        if_neg h6, if_neg hno, if_pos rfl, if_pos hred]
      exact ih hacc
  | case10 rest prev inS inD esc buf acc h1 h5 hred h2 h3 h4 h6 hno ih =>
    intro hacc
    cases rest with
    | nil =>
      rw [splitLoop.eq_3, if_neg h1, if_neg h2, if_neg h3, if_neg h4, if_pos h5,
        if_neg h6, if_neg hno, if_pos rfl, if_neg hred]
      exact ih (splitFlush_pres _ _ hacc)
    | cons c2 r2 =>
      rw [splitLoop.eq_2, if_neg h1, if_neg h2, if_neg h3, if_neg h4, if_pos h5,
        if_neg h6, if_neg hno, if_pos rfl, if_neg hred]
      exact ih (splitFlush_pres _ _ hacc)
  | case11 c rest prev inS inD esc buf acc h1 h2 h3 h4 h5 h6 hnp hna hsc ih =>
    intro hacc
    cases rest with
    | nil =>
      rw [splitLoop.eq_3, if_neg h1, if_neg h2, if_neg h3, if_neg h4, if_pos h5,
        if_neg h6, if_neg hnp, if_neg hna, if_pos hsc]
      exact ih (splitFlush_pres _ _ hacc)
    | cons c2 r2 =>
      rw [splitLoop.eq_2, if_neg h1, if_neg h2, if_neg h3, if_neg h4, if_pos h5,
        if_neg h6, if_neg hnp, if_neg hna, if_pos hsc]
      exact ih (splitFlush_pres _ _ hacc)
  | case12 c rest prev inS inD esc buf acc h1 h2 h3 h4 h5 h6 hnp hna hsc ih =>
    intro hacc
    cases rest with
    | nil =>
      rw [splitLoop.eq_3, if_neg h1, if_neg h2, if_neg h3, if_neg h4, if_pos h5,
        if_neg h6, if_neg hnp, if_neg hna, if_neg hsc]
      exact ih hacc
    | cons c2 r2 =>
      rw [splitLoop.eq_2, if_neg h1, if_neg h2, if_neg h3, if_neg h4, if_pos h5,
        if_neg h6, if_neg hnp, if_neg hna, if_neg hsc]
      exact ih hacc
  | case13 c rest prev inS inD esc buf acc h1 h2 h3 h4 h5 ih =>
    intro hacc
    cases rest with
    | nil =>
      rw [splitLoop.eq_3, if_neg h1, if_neg h2, if_neg h3, if_neg h4, if_neg h5]
      exact ih hacc
    | cons c2 r2 =>
      rw [splitLoop.eq_2, if_neg h1, if_neg h2, if_neg h3, if_neg h4, if_neg h5]
      exact ih hacc

/-- C9: for every input string the shell splitter `_split_shell_commands`
agrees with the specification-side splitter built from the words of spec
section 4.A (splitting outside quotes at `;`, newline, `||`, `&&`, `|`,
`|&` and unattached `&`, where a `&` immediately preceded by `>` or `<` or
immediately followed by `>` does not split), and every returned segment is
non-empty and trimmed (a fixed point of `str.strip`), in source order by
construction.  Totality and the behaviour on malformed quoting (the
remaining buffer becomes the last segment) hold by definition: the loop is
a total function whose final step flushes the buffer. -/
theorem C9_splitter_spec (s : String) :
    splitShellCommands s = specSplitShellCommands s ∧
      ∀ seg ∈ splitShellCommands s, seg ≠ "" ∧ trimStr seg = seg := by
  constructor
  · exact (specSplitLoop_eq_splitLoop s.data none false false false [] []).symm
  · exact splitLoop_inv s.data none false false false [] []
      (fun t ht => absurd ht (List.not_mem_nil t))

/-- Witness for C9 at the concrete input string "a && b". -/
theorem C9_splitter_spec_witness :
    splitShellCommands "a && b" = specSplitShellCommands "a && b" ∧
      ("a" ≠ "" ∧ trimStr "a" = "a") :=
  ⟨(C9_splitter_spec "a && b").1,
   (C9_splitter_spec "a && b").2 "a" (by decide)⟩
